import Mathlib

/-!
# Verification of the `signal_generator` waveform synthesizer

Shallow embedding of `src/signal_generator/__init__.py` (class
`signal_generator`).  Python floats are modelled as exact rationals `ℚ`;
the transcendental value computations (`np.sin`, `np.pi`) and the random /
externally designed data (`np.random`, `scsig.remez`) are supplied as
parameters of the model, collected in an `Env` record.  The value column of
the output matrix lives in an arbitrary field `R` (instantiated with `ℝ`
or, for concrete evaluations, `ℚ`).

Python dynamic failures (TypeError on `list * float`, IndexError,
ZeroDivisionError, and the fatal log for unsupported signal types) are
modelled with `Except String`.
-/

namespace SigGen

/-! ## Coherent frequency resolver (`is_prime`, `get_coherent_fin`) -/

/-- Python `range(3, stop, 2)` as a list of naturals. -/
def oddRange (stop : ℕ) : List ℕ := List.range' 3 ((stop + 1 - 3) / 2) 2

/-- Largest `k ≤ m` with `k * k ≤ n` (`0` if none), structurally recursive so
that the kernel can evaluate it. -/
def isqrtGo (n : ℕ) : ℕ → ℕ
  | 0 => 0
  | m + 1 => if (m + 1) * (m + 1) ≤ n then m + 1 else isqrtGo n m

/-- Embeds `int(np.sqrt(n))`: the integer square root (exact for the
argument sizes the generator feeds it). -/
def isqrt (n : ℕ) : ℕ := isqrtGo n n

theorem isqrtGo_sq_le (n : ℕ) : ∀ m, isqrtGo n m * isqrtGo n m ≤ n := by
  intro m
  induction m with
  | zero => simp [isqrtGo]
  | succ m ih =>
    unfold isqrtGo
    split
    · assumption
    · exact ih

theorem le_isqrtGo (n : ℕ) : ∀ m k, k ≤ m → k * k ≤ n → k ≤ isqrtGo n m := by
  intro m
  induction m with
  | zero => intro k hk _; omega
  | succ m ih =>
    intro k hk hsq
    unfold isqrtGo
    split
    · exact hk
    · rename_i hfail
      have hkm : k ≤ m := by
        rcases Nat.lt_or_ge k (m + 1) with h | h
        · omega
        · exfalso
          have : (m + 1) * (m + 1) ≤ k * k := Nat.mul_le_mul h h
          omega
      exact ih k hkm hsq

/-- The executable integer square root agrees with `Nat.sqrt`. -/
theorem isqrt_eq_sqrt (n : ℕ) : isqrt n = Nat.sqrt n := by
  refine (Nat.eq_sqrt.mpr ⟨isqrtGo_sq_le n n, ?_⟩)
  by_contra hlt
  push_neg at hlt
  have h1 : isqrt n + 1 ≤ (isqrt n + 1) * (isqrt n + 1) := Nat.le_mul_of_pos_left _ (by omega)
  have h2 : isqrt n + 1 ≤ n := le_trans h1 hlt
  have := le_isqrtGo n n (isqrt n + 1) h2 hlt
  unfold isqrt at this
  omega

/-- Embeds `signal_generator.is_prime`:
`if n % 2 == 0 and n > 2: return False` followed by
`all(n % i for i in range(3, int(np.sqrt(n)) + 1, 2))`. -/
def is_prime (n : ℕ) : Bool :=
  if n % 2 = 0 ∧ 2 < n then false
  else (oddRange (isqrt n + 1)).all (fun i => n % i != 0)

/-- Embeds `np.extract(pbools, np.arange(1, maxprime))`: the elements of
`[1, ..., maxprime-1]` accepted by `is_prime` (note that `1` is accepted). -/
def primesUpTo (maxprime : ℕ) : List ℕ :=
  (List.range' 1 (maxprime - 1)).filter is_prime

/-- Embeds `window = np.floor(nsamp*fin/fs)` (exact arithmetic; the Python
loop recomputes this identical value on every retry). -/
def window0 (fs fin : ℚ) (nsamp : ℕ) : ℤ := ⌊(nsamp : ℚ) * fin / fs⌋

/-- Embeds `primes[np.where(primes >= window)[0][0]]`: the first accepted
number `≥ window` in the current search range, `none` on IndexError. -/
def findWindow (w : ℤ) (maxprime : ℕ) : Option ℕ :=
  (primesUpTo maxprime).find? (fun p => w ≤ (p : ℤ))

/-- Embeds the `while not success` retry loop of `get_coherent_fin`: on
IndexError the ceiling `maxprime` is doubled and the search retried.  The
unbounded Python loop is modelled with explicit fuel. -/
def coherentLoop (w : ℤ) : ℕ → ℕ → Option ℕ
  | 0, _ => none
  | fuel + 1, maxprime =>
    match findWindow w maxprime with
    | some p => some p
    | none => coherentLoop w fuel (2 * maxprime)

/-- Embeds `get_coherent_fin(fs, fin, nsamp)`: the initial ceiling is
`2**5` and the returned frequency is `(window/nsamp)*fs`. -/
def get_coherent_fin (fs fin : ℚ) (nsamp fuel : ℕ) : Option ℚ :=
  (coherentLoop (window0 fs fin nsamp) fuel 32).map
    (fun (p : ℕ) => ((p : ℚ) / (nsamp : ℚ)) * fs)

/-! ### Characterization of `is_prime` -/

theorem oddRange_mem {stop i : ℕ} :
    i ∈ oddRange stop ↔ ∃ a, a < (stop + 1 - 3) / 2 ∧ i = 3 + 2 * a := by
  simp [oddRange, List.mem_range']

/-- Every member of the trial-division range is odd and within `[3, stop)`. -/
theorem oddRange_bounds {stop i : ℕ} (h : i ∈ oddRange stop) :
    3 ≤ i ∧ i < stop ∧ i % 2 = 1 := by
  rcases oddRange_mem.mp h with ⟨a, ha, rfl⟩
  refine ⟨by omega, ?_, by omega⟩
  -- a < (stop + 1 - 3)/2 gives 2*a + 3 < stop + 1, i.e. 3 + 2*a < stop + 1
  have h2 : a + 1 ≤ (stop + 1 - 3) / 2 := ha
  have h3 : (a + 1) * 2 ≤ stop + 1 - 3 := (Nat.le_div_iff_mul_le (by norm_num)).mp h2
  omega

/-- Conversely, every odd `i` with `3 ≤ i < stop` is tried. -/
theorem oddRange_mem_of {stop i : ℕ} (h3 : 3 ≤ i) (hlt : i < stop) (hodd : i % 2 = 1) :
    i ∈ oddRange stop := by
  refine oddRange_mem.mpr ⟨(i - 3) / 2, ?_, by omega⟩
  have : (i - 3) / 2 + 1 ≤ (stop + 1 - 3) / 2 := by
    apply (Nat.le_div_iff_mul_le (by norm_num)).mpr
    omega
  omega

/-- `is_prime` accepts exactly `0`, `1`, `2` and the primes (so `0`, `1`
and the true primes; note `0` and `1` are accepted although not prime). -/
theorem is_prime_iff (n : ℕ) : is_prime n = true ↔ n < 2 ∨ Nat.Prime n := by
  constructor
  · intro h
    by_cases hn : n < 2
    · exact Or.inl hn
    right
    push_neg at hn
    rcases Nat.lt_or_ge n 3 with h3 | h3
    · interval_cases n
      · exact Nat.prime_two
    by_cases heven : n % 2 = 0
    · exfalso
      have : is_prime n = false := by
        unfold is_prime
        rw [if_pos ⟨heven, by omega⟩]
      rw [this] at h; exact Bool.false_ne_true h
    -- n odd, n ≥ 3: trial division by odd numbers up to √n succeeded
    unfold is_prime at h
    rw [if_neg (by omega), isqrt_eq_sqrt, List.all_eq_true] at h
    by_contra hnp
    -- take the least prime factor p of n; then p*p ≤ n and p is odd
    have hne1 : n ≠ 1 := by omega
    have hp := Nat.minFac_prime hne1
    have hdvd := Nat.minFac_dvd n
    set p := Nat.minFac n with hpdef
    have hsq : p * p ≤ n := by
      have := Nat.minFac_sq_le_self (by omega) hnp
      simpa [pow_two] using this
    have hple : p ≤ Nat.sqrt n := Nat.le_sqrt.mpr hsq
    have hpodd : p % 2 = 1 := by
      rcases Nat.mod_two_eq_zero_or_one p with h0 | h1
      · exfalso
        have h2p : 2 ∣ p := Nat.dvd_of_mod_eq_zero h0
        have h2n : 2 ∣ n := h2p.trans hdvd
        rcases h2n with ⟨c, rfl⟩
        omega
      · exact h1
    have hp3 : 3 ≤ p := by
      have := hp.two_le
      rcases Nat.lt_or_ge p 3 with hlt | hge
      · interval_cases p
        · omega
      · exact hge
    have hmem : p ∈ oddRange (Nat.sqrt n + 1) :=
      oddRange_mem_of hp3 (by omega) hpodd
    have := h p hmem
    have hmod : n % p = 0 := by
      obtain ⟨c, hc⟩ := hdvd
      rw [hc]
      simp [Nat.mul_mod_right]
    simp [hmod] at this
  · intro h
    rcases h with h | h
    · -- n = 0 or n = 1: the even-rejection test fails and the range is empty
      interval_cases n <;> rfl
    · by_cases heven : n % 2 = 0
      · -- the only even prime is 2
        have : n = 2 := (Nat.Prime.even_iff h).mp (Nat.even_iff.mpr heven)
        subst this; rfl
      unfold is_prime
      rw [if_neg (by omega), isqrt_eq_sqrt, List.all_eq_true]
      intro i hi
      obtain ⟨h3, hlt, _⟩ := oddRange_bounds hi
      have hn2 : 2 ≤ n := h.two_le
      have hin : i < n := by
        have := Nat.sqrt_lt_self (by omega : 1 < n)
        omega
      have : ¬ i ∣ n := by
        intro hdvd
        rcases (Nat.Prime.eq_one_or_self_of_dvd h i hdvd) with h1 | h1 <;> omega
      have : n % i ≠ 0 := fun hc => this (Nat.dvd_of_mod_eq_zero hc)
      simpa using this

/-! ### The search list and the retry loop -/

theorem primesUpTo_mem {M m : ℕ} :
    m ∈ primesUpTo M ↔ (1 ≤ m ∧ m < M) ∧ is_prime m = true := by
  unfold primesUpTo
  rw [List.mem_filter, List.mem_range'_1]
  constructor
  · rintro ⟨⟨h1, h2⟩, h3⟩
    exact ⟨⟨h1, by omega⟩, h3⟩
  · rintro ⟨⟨h1, h2⟩, h3⟩
    exact ⟨⟨h1, by omega⟩, h3⟩

theorem primesUpTo_sorted (M : ℕ) : (primesUpTo M).Pairwise (· < ·) :=
  (List.pairwise_lt_range' 1 (M - 1) 1).filter _

/-- What a successful inner search returns: the smallest `is_prime`-accepted
number that is `≥ w` (over all naturals, not only the current range). -/
theorem findWindow_some {w : ℤ} {M p : ℕ} (h : findWindow w M = some p) :
    is_prime p = true ∧ 1 ≤ p ∧ p < M ∧ w ≤ (p : ℤ) ∧
      ∀ m : ℕ, 1 ≤ m → is_prime m = true → w ≤ (m : ℤ) → p ≤ m := by
  unfold findWindow at h
  have hmem : p ∈ primesUpTo M := List.mem_of_find?_eq_some h
  have hpred : w ≤ (p : ℤ) := by simpa using List.find?_some h
  obtain ⟨⟨h1, hM⟩, hacc⟩ := primesUpTo_mem.mp hmem
  refine ⟨hacc, h1, hM, hpred, ?_⟩
  intro m hm1 hmacc hmw
  rcases Nat.lt_or_ge m M with hmM | hmM
  · -- m is in the searched list; p is the first match of a sorted list
    have hmmem : m ∈ primesUpTo M := primesUpTo_mem.mpr ⟨⟨hm1, hmM⟩, hmacc⟩
    obtain ⟨-, as, bs, hsplit, hpre⟩ := List.find?_eq_some.mp h
    have hsort := primesUpTo_sorted M
    rw [hsplit] at hsort hmmem
    rcases List.mem_append.mp hmmem with hin | hin
    · exfalso
      have := hpre m hin
      simp at this
      omega
    · rcases List.mem_cons.mp hin with rfl | hin
      · exact le_rfl
      · have := (List.pairwise_append.mp hsort).2.1
        exact le_of_lt ((List.pairwise_cons.mp this).1 m hin)
  · omega

theorem findWindow_isSome {w : ℤ} {M q : ℕ} (hq : is_prime q = true)
    (h1 : 1 ≤ q) (hqM : q < M) (hwq : w ≤ (q : ℤ)) :
    (findWindow w M).isSome := by
  unfold findWindow
  rw [List.find?_isSome]
  exact ⟨q, primesUpTo_mem.mpr ⟨⟨h1, hqM⟩, hq⟩, by simpa using hwq⟩

theorem coherentLoop_some_elim {w : ℤ} :
    ∀ {fuel m0 p : ℕ}, coherentLoop w fuel m0 = some p → ∃ M, findWindow w M = some p := by
  intro fuel
  induction fuel with
  | zero => intro m0 p h; simp [coherentLoop] at h
  | succ fuel ih =>
    intro m0 p h
    unfold coherentLoop at h
    rcases hf : findWindow w m0 with _ | q
    · rw [hf] at h
      exact ih h
    · rw [hf] at h
      exact ⟨m0, hf.trans h⟩

theorem coherentLoop_isSome_of {w : ℤ} :
    ∀ (fuel m0 : ℕ), (findWindow w (m0 * 2 ^ fuel)).isSome →
      (coherentLoop w (fuel + 1) m0).isSome := by
  intro fuel
  induction fuel with
  | zero =>
    intro m0 h
    simp only [pow_zero, Nat.mul_one] at h
    unfold coherentLoop
    rcases hf : findWindow w m0 with _ | q
    · rw [hf] at h
      simp at h
    · rfl
  | succ fuel ih =>
    intro m0 h
    unfold coherentLoop
    rcases hf : findWindow w m0 with _ | q
    · have h2 : (findWindow w (2 * m0 * 2 ^ fuel)).isSome := by
        have e : 2 * m0 * 2 ^ fuel = m0 * 2 ^ (fuel + 1) := by ring
        rw [e]
        exact h
      exact ih (2 * m0) h2
    · rfl

/-- C1 (amended): a successful `get_coherent_fin(fs, fin, nsamp)` returns
`f' = (p/nsamp)*fs` where `p` — which equals `round(nsamp*f'/fs)` — is the
smallest number accepted by `is_prime` (that is, `1` or a genuine prime)
with `p ≥ floor(nsamp*fin/fs)`.  Whenever `floor(nsamp*fin/fs) ≥ 2` this
`p` is the smallest prime above the window, as the original claim states;
but when the window is `≤ 1` the code returns `p = 1`, which is not prime
(see `C1_counterexample`). -/
theorem C1_get_coherent_fin_spec (fs fin : ℚ) (nsamp fuel : ℕ) (f' : ℚ)
    (hfs : 0 < fs) (hfin : 0 < fin) (hn : 0 < nsamp)
    (h : get_coherent_fin fs fin nsamp fuel = some f') :
    ∃ p : ℕ,
      f' = ((p : ℚ) / (nsamp : ℚ)) * fs ∧
      round ((nsamp : ℚ) * f' / fs) = (p : ℤ) ∧
      window0 fs fin nsamp ≤ (p : ℤ) ∧
      is_prime p = true ∧
      (p = 1 ∨ Nat.Prime p) ∧
      (∀ m : ℕ, 1 ≤ m → is_prime m = true → window0 fs fin nsamp ≤ (m : ℤ) → p ≤ m) ∧
      (2 ≤ window0 fs fin nsamp → Nat.Prime p) := by
  unfold get_coherent_fin at h
  rcases hL : coherentLoop (window0 fs fin nsamp) fuel 32 with _ | p
  · rw [hL] at h
    simp at h
  rw [hL] at h
  simp only [Option.map_some', Option.some.injEq] at h
  rename' h => hf'
  obtain ⟨M, hfind⟩ := coherentLoop_some_elim hL
  obtain ⟨hacc, h1, hM, hw, hmin⟩ := findWindow_some hfind
  have hnsQ : (nsamp : ℚ) ≠ 0 := Nat.cast_ne_zero.mpr (by omega)
  have hfsQ : fs ≠ 0 := ne_of_gt hfs
  have hround : (nsamp : ℚ) * f' / fs = (p : ℚ) := by
    rw [← hf']
    field_simp
  refine ⟨p, hf'.symm, ?_, hw, hacc, ?_, hmin, ?_⟩
  · rw [hround]
    exact round_natCast p
  · rcases (is_prime_iff p).mp hacc with hlt | hp
    · exact Or.inl (by omega)
    · exact Or.inr hp
  · intro h2
    rcases (is_prime_iff p).mp hacc with hlt | hp
    · exfalso
      have : (2 : ℤ) ≤ (p : ℤ) := le_trans h2 hw
      omega
    · exact hp

/-- Witness for C1: `fs = 2`, `fin = 3`, `nsamp = 4` gives window
`floor(4*3/2) = 6` and the resolver returns `f' = 7/2`, with
`round(4 * (7/2) / 2) = 7` the least accepted number `≥ 6`. -/
theorem C1_get_coherent_fin_spec_witness :
    0 < (2 : ℚ) ∧ 0 < (3 : ℚ) ∧ 0 < 4 ∧
    ∃ p : ℕ,
      (7 / 2 : ℚ) = ((p : ℚ) / (4 : ℚ)) * 2 ∧
      round ((4 : ℚ) * (7 / 2) / 2) = (p : ℤ) ∧
      window0 2 3 4 ≤ (p : ℤ) ∧
      is_prime p = true ∧
      (p = 1 ∨ Nat.Prime p) ∧
      (∀ m : ℕ, 1 ≤ m → is_prime m = true → window0 2 3 4 ≤ (m : ℤ) → p ≤ m) ∧
      (2 ≤ window0 2 3 4 → Nat.Prime p) := by
  have hw : window0 2 3 4 = 6 := by
    unfold window0
    norm_num
  have hcomp : get_coherent_fin 2 3 4 1 = some (7 / 2) := by
    unfold get_coherent_fin
    rw [hw]
    have : coherentLoop 6 1 32 = some 7 := by decide
    rw [this]
    norm_num
  exact ⟨by norm_num, by norm_num, by norm_num,
    C1_get_coherent_fin_spec 2 3 4 1 (7 / 2) (by norm_num) (by norm_num)
      (by norm_num) hcomp⟩

/-- C1 counterexample: at `fs = 2`, `fin = 1`, `nsamp = 1` the window is
`floor(1*1/2) = 0`, the search list `np.arange(1, 32)` starts at `1`, and
`is_prime(1)` is `True`, so the resolver returns `f' = 2` with
`round(nsamp*f'/fs) = 1`, which is not a prime number. -/
theorem C1_counterexample :
    get_coherent_fin 2 1 1 1 = some 2 ∧
    round ((1 : ℚ) * 2 / 2) = 1 ∧ ¬ Nat.Prime 1 := by
  have hw : window0 2 1 1 = 0 := by
    unfold window0
    norm_num
  refine ⟨?_, ?_, Nat.not_prime_one⟩
  · unfold get_coherent_fin
    rw [hw]
    have : coherentLoop 0 1 32 = some 1 := by decide
    rw [this]
    norm_num
  · have : (1 : ℚ) * 2 / 2 = 1 := by norm_num
    rw [this, round_one]

/-- C7: for positive inputs the doubling retry loop of `get_coherent_fin`
terminates: some finite fuel (number of doublings plus one) suffices for
the prime search to produce a result. -/
theorem C7_get_coherent_fin_terminates (fs fin : ℚ) (nsamp : ℕ)
    (hfs : 0 < fs) (hfin : 0 < fin) (hn : 0 < nsamp) :
    ∃ fuel, (get_coherent_fin fs fin nsamp fuel).isSome := by
  set w := window0 fs fin nsamp with hwdef
  obtain ⟨q, hqge, hqprime⟩ := Nat.exists_infinite_primes w.toNat
  have hacc : is_prime q = true := (is_prime_iff q).mpr (Or.inr hqprime)
  have hwq : w ≤ (q : ℤ) := by
    calc w ≤ (w.toNat : ℤ) := Int.self_le_toNat w
    _ ≤ (q : ℤ) := by exact_mod_cast hqge
  have hqlt : q < 32 * 2 ^ q := by
    have h1 : q < 2 ^ q := Nat.lt_two_pow q
    have h2 : 2 ^ q ≤ 32 * 2 ^ q := Nat.le_mul_of_pos_left _ (by norm_num)
    omega
  refine ⟨q + 1, ?_⟩
  unfold get_coherent_fin
  rw [Option.isSome_map']
  have h1q : 1 ≤ q := hqprime.one_lt.le
  exact coherentLoop_isSome_of q 32 (findWindow_isSome hacc h1q hqlt hwq)

/-- Witness for C7 at `fs = 2`, `fin = 3`, `nsamp = 4`. -/
theorem C7_get_coherent_fin_terminates_witness :
    0 < (2 : ℚ) ∧ 0 < (3 : ℚ) ∧ 0 < 4 ∧
    ∃ fuel, (get_coherent_fin 2 3 4 fuel).isSome :=
  ⟨by norm_num, by norm_num, by norm_num,
    C7_get_coherent_fin_terminates 2 3 4 (by norm_num) (by norm_num) (by norm_num)⟩

/-! ## Configuration record, environment and the synthesis paths -/

/-- A Python attribute that holds either a scalar float or a list of
floats (`sig_freq`, `sig_amp`, `sig_cm`). -/
inductive QVal where
  | scalar (q : ℚ)
  | list (l : List ℚ)
deriving DecidableEq

/-- Lines 124-129: a scalar is wrapped into a singleton list. -/
def QVal.toList : QVal → List ℚ
  | .scalar q => [q]
  | .list l => l

/-- The attributes of `signal_generator` read by `main` (defaults are the
ones set in `__init__`; floats are modelled exactly as rationals). -/
structure Config where
  sig_freq : QVal := .scalar 1000000
  sig_amp : QVal := .scalar (1 / 2)
  sig_cm : QVal := .scalar 0
  sig_phase : ℚ := 0
  tau : ℚ := 0
  sig_osr : ℕ := 1
  nsamp : ℕ := 1024
  extra_sampl : ℕ := 0
  fs : ℚ := 2000000000
  snr : ℚ := 0
  jitter_sd : Option ℚ := none
  coherent : Bool := false
  sigtype : String := "sine"
  high : ℚ := 1
  low : ℚ := 0
  after : ℚ := 0
  duty : ℚ := 1 / 2
  trise : ℚ := 1 / 200000000000
  tfall : ℚ := 1 / 200000000000
  slopetype : String := "rising"

/-- External functions and realized random draws used by `main`: `np.sin`
and `np.pi` (transcendental, hence parameters of the model), the realized
Gaussian draws for SNR noise, bandpass noise and jitter, and the
`scsig.remez` filter taps (an external deterministic design routine). -/
structure Env (R : Type) where
  sinf : R → R
  piR : R
  snoise : ℕ → R
  randn : ℕ → R
  bpf : List R
  jit : ℕ → ℚ

/-- The output sample matrix: (timestamp, value) rows.  Timestamps are
exact rationals; values live in the field `R`. -/
abbrev Mat (R : Type) := List (ℚ × R)

/-- Python list repetition `l * n` (empty for nonpositive `n`). -/
def pyRep (l : List ℚ) (n : ℤ) : List ℚ := (List.replicate n.toNat l).flatten

/-- Embeds `phase_from_delay`: `phase=-360*self.sig_freq*self.tau`.  When
`main` reaches it, `self.sig_freq` is a Python list, so `(-360)*sig_freq`
is list repetition (yielding `[]`); multiplying the resulting list by a
non-integer `tau` raises TypeError, while an integer `tau` repeats again
and produces a list. -/
def phase_from_delay (sig_freq : List ℚ) (tau : ℚ) : Except String (List ℚ) :=
  if tau.den = 1 then .ok (pyRep (pyRep sig_freq (-360)) tau.num)
  else .error "TypeError"

/-- Lines 145-148: the phase is `self.sig_phase` when `tau == 0`;
otherwise `phase_from_delay` yields a Python list (see its docstring) and
the subsequent `phase*np.pi/180` in the sine expression multiplies a list
by a float, raising TypeError. -/
def phaseValue (sig_freq : List ℚ) (tau sig_phase : ℚ) : Except String ℚ :=
  if tau = 0 then .ok sig_phase
  else
    match phase_from_delay sig_freq tau with
    | .ok _ => .error "TypeError"
    | .error e => .error e

/-- Line 140-141: optional in-place coherent resolution of one tone.  The
`none` case of `get_coherent_fin` means the modelling fuel ran out (the
Python loop would still be running). -/
def coherentResolve (coherent : Bool) (fs q : ℚ) (nsamp fuel : ℕ) : Except String ℚ :=
  if coherent then
    match get_coherent_fin fs q nsamp fuel with
    | some r => .ok r
    | none => .error "resolver fuel exhausted"
  else .ok q

/-- Lines 131-136: `list(np.ones(len(sig_freq))*xs[0])` — broadcast the
first element (IndexError on an empty list). -/
def broadcastFirst (n : ℕ) : List ℚ → Except String (List ℚ)
  | [] => .error "IndexError"
  | a :: _ => .ok (List.replicate n a)

/-- `np.linspace(0, n/fs, num=rows, endpoint=False)` at index `k`:
`k * ((n/fs)/rows)` in exact arithmetic. -/
def linT (n : ℕ) (fs : ℚ) (rows k : ℕ) : ℚ :=
  (k : ℚ) * (((n : ℚ) / fs) / (rows : ℚ))

/-- One tone of the sine sum (lines 151/153):
`sig_amp[i]*np.sin(2.*np.pi*sig_freq[i]*t+phase*np.pi/180)+sig_cm[i]`. -/
def toneVal {R : Type} [Field R] (sinf : R → R) (piR : R)
    (fq amp cm phase t : ℚ) : R :=
  (amp : R) * sinf (2 * piR * (fq : R) * (t : R) + (phase : R) * piR / 180) + (cm : R)

/-- The per-tone loop of the sine path (lines 139-153): optionally resolve
`sig_freq[i]` in place, compute the phase from the current frequency list,
and accumulate the tone into `sig` (which starts as Python `None`). -/
def toneLoop {R : Type} [Field R] (sinf : R → R) (piR : R)
    (fs tau sig_phase : ℚ) (nsamp fuel : ℕ) (coherent : Bool)
    (amps cms : List ℚ) (t : ℕ → ℚ) :
    List ℕ → List ℚ → Option (ℕ → R) → Except String (List ℚ × Option (ℕ → R))
  | [], freqs, sig => .ok (freqs, sig)
  | i :: rest, freqs, sig => do
    let fi ← coherentResolve coherent fs (freqs.getD i 0) nsamp fuel
    let freqs1 := if coherent then freqs.set i fi else freqs
    let phase ← phaseValue freqs1 tau sig_phase
    let tone : ℕ → R := fun k =>
      toneVal sinf piR (freqs1.getD i 0) (amps.getD i 0) (cms.getD i 0) phase (t k)
    let sig1 : Option (ℕ → R) := some (match sig with
      | none => tone
      | some s => fun k => s k + tone k)
    toneLoop sinf piR fs tau sig_phase nsamp fuel coherent amps cms t rest freqs1 sig1

/-- Lines 143-144 and 159-160: the plain sine output matrix, one row per
`linspace` point, timestamps shifted by `after`. -/
def sineMat {R : Type} [Field R] (cfg : Config) (sig : ℕ → R) : Mat R :=
  (List.range ((cfg.nsamp + cfg.extra_sampl) * cfg.sig_osr)).map
    (fun k =>
      (linT (cfg.nsamp + cfg.extra_sampl) cfg.fs
        ((cfg.nsamp + cfg.extra_sampl) * cfg.sig_osr) k + cfg.after, sig k))

/-- Lines 163-168: the sampled-sine step sequence; row `2k` is
`(arange[k] + after, sine[k,1])` and row `2k+1` shifts the timestamp by
`1/fs - trise` (strided numpy assignment). -/
def pairMat {R : Type} [Field R] (cfg : Config) (sig : ℕ → R) : Mat R :=
  (List.range (2 * (cfg.nsamp + cfg.extra_sampl))).map (fun idx =>
    if idx % 2 = 0 then (((idx / 2 : ℕ) : ℚ) / cfg.fs + cfg.after, sig (idx / 2))
    else (((idx / 2 : ℕ) : ℚ) / cfg.fs + cfg.after + 1 / cfg.fs - cfg.trise,
      sig (idx / 2)))

/-- Lines 124-158 of the sine branch: list normalization, broadcasting,
the per-tone loop and the optional SNR noise; returns the resolved
frequency list, the normalized amplitude and common-mode lists and the
final signal function. -/
def sineCore {R : Type} [Field R] (env : Env R) (cfg : Config) (fuel : ℕ) :
    Except String (List ℚ × List ℚ × List ℚ × (ℕ → R)) := do
  let f := cfg.sig_freq.toList
  let a0 := cfg.sig_amp.toList
  let c0 := cfg.sig_cm.toList
  let a ← if a0.length = f.length then .ok a0 else broadcastFirst f.length a0
  let c ← if c0.length = f.length then .ok c0 else broadcastFirst f.length c0
  -- with an empty frequency list the loop never runs and line 159 hits
  -- the undefined local `tvec`/`outmat`
  if f.isEmpty then .error "NameError"
  else do
    let res ← toneLoop env.sinf env.piR cfg.fs cfg.tau cfg.sig_phase
      cfg.nsamp fuel cfg.coherent a c
      (linT (cfg.nsamp + cfg.extra_sampl) cfg.fs
        ((cfg.nsamp + cfg.extra_sampl) * cfg.sig_osr))
      (List.range f.length) f none
    match res.2 with
    | none => .error "NameError"
    | some sig0 =>
      -- lines 156-158: optional white noise towards the target SNR
      .ok (res.1, a, c,
        if 0 < cfg.snr then (fun k => sig0 k + env.snoise k) else sig0)

/-- Lines 159-170: build the output matrix from the final signal — the
plain sine matrix, or the sampled-sine step sequence with its optional
`(0, sine[0,1])` anchor — together with the post-call configuration. -/
def sineFinish {R : Type} [Field R] (cfg : Config)
    (r : List ℚ × List ℚ × List ℚ × (ℕ → R)) : Except String (Mat R × Config) :=
  let cfg1 := { cfg with
    sig_freq := .list r.1, sig_amp := .list r.2.1, sig_cm := .list r.2.2.1 }
  let sig := r.2.2.2
  if cfg.sigtype = "sine_samp" then
    if cfg.after = 0 then .ok (pairMat cfg sig, cfg1)
    else if (cfg.nsamp + cfg.extra_sampl) * cfg.sig_osr = 0 then
      .error "IndexError"  -- `sine[0,1]` on an empty matrix
    else .ok (((0 : ℚ), sig 0) :: pairMat cfg sig, cfg1)
  else .ok (sineMat cfg sig, cfg1)

/-- The sine / sampled-sine branch of `main` (lines 121-170), returning
the matrix together with the post-call configuration. -/
def sinePath {R : Type} [Field R] (env : Env R) (cfg0 : Config) (fuel : ℕ) :
    Except String (Mat R × Config) :=
  -- lines 122-123: oversampling unsupported for sine_samp, forced to 1
  let cfg := if cfg0.sigtype = "sine_samp" ∧ cfg0.sig_osr ≠ 1 then
    { cfg0 with sig_osr := 1 } else cfg0
  match sineCore env cfg fuel with
  | .error e => .error e
  | .ok r => sineFinish cfg r

/-- Truthiness of `if self.jitter_sd:` — `None` and `0.0` are both falsy. -/
def jitterEnabled : Option ℚ → Bool
  | none => false
  | some sd => sd != 0

/-- Embeds lines 200-203: the timestamp of vertex `r ∈ {0,1,2,3}` of
period `k` — `arange` start, plus rise, plus flat top, plus fall, with the
jitter contributions exactly as the strided numpy sums add them. -/
def pulseT (cfg : Config) (f : ℚ) (j : ℕ → ℚ) : ℕ → ℕ → ℚ
  | 0, k => (k : ℚ) / f + cfg.after + j (2 * k)
  | 1, k => pulseT cfg f j 0 k + cfg.trise + j (2 * k)
  | 2, k => pulseT cfg f j 1 k + cfg.duty / f - cfg.trise + j (2 * k + 1)
  | _ + 3, k => pulseT cfg f j 2 k + cfg.tfall + j (2 * k + 1)

/-- Embeds lines 194-198: the voltage level of vertex `r` (low, high,
high, low). -/
def pulseV {R : Type} [Field R] (cfg : Config) : ℕ → R
  | 0 => (cfg.low : R)
  | 1 => (cfg.high : R)
  | 2 => (cfg.high : R)
  | _ + 3 => (cfg.low : R)

/-- Lines 186-192: the jitter array — fresh Gaussian draws when
`self.jitter_sd` is truthy, `np.zeros` otherwise. -/
def effJit {R : Type} (env : Env R) (cfg : Config) : ℕ → ℚ :=
  fun i => if jitterEnabled cfg.jitter_sd then env.jit i else 0

/-- The pulse branch of `main` (lines 185-205) once the scalar frequency
has been extracted; row `idx` of the strided numpy assignments belongs to
period `idx/4` and is vertex `idx%4` of it. -/
def pulseScalar {R : Type} [Field R] (env : Env R) (cfg : Config) (f : ℚ) :
    Except String (Mat R × Config) :=
  if f = 0 then .error "ZeroDivisionError"
  else
    let n := cfg.nsamp + cfg.extra_sampl
    let mat : Mat R := (List.range (4 * n)).map (fun idx =>
      (pulseT cfg f (effJit env cfg) (idx % 4) (idx / 4), pulseV cfg (idx % 4)))
    let mat := if cfg.after = 0 then mat else ((0 : ℚ), (cfg.low : R)) :: mat
    .ok (mat, cfg)

/-- The pulse branch of `main` (lines 185-205). -/
def pulsePath {R : Type} [Field R] (env : Env R) (cfg : Config) :
    Except String (Mat R × Config) :=
  match cfg.sig_freq with
  | .list _ => .error "TypeError"  -- `1/self.sig_freq` with a list frequency
  | .scalar f => pulseScalar env cfg f

/-- `np.mod` for rationals: `x - m*floor(x/m)`. -/
def qmod (x m : ℚ) : ℚ := x - m * ⌊x / m⌋

/-- Line 211: `sig = np.mod(tvec, 1/self.sig_freq) * self.sig_freq`. -/
def sawRamp (nsamp : ℕ) (fs : ℚ) (rows : ℕ) (f : ℚ) (k : ℕ) : ℚ :=
  qmod (linT nsamp fs rows k) (1 / f) * f

/-- Lines 212-218: centering around zero (reflected for the falling slope),
amplitude scaling, common-mode shift. -/
def sawSig (slopetype : String) (nsamp : ℕ) (fs : ℚ) (rows : ℕ)
    (f amp cm : ℚ) (k : ℕ) : ℚ :=
  (if slopetype = "falling" then 1 / 2 - sawRamp nsamp fs rows f k
   else sawRamp nsamp fs rows f k - 1 / 2) * amp + cm

/-- The sawtooth branch of `main` (lines 206-220) once the scalar fields
have been extracted.  Note the time vector spans `self.nsamp/self.fs`
while having `(nsamp+extra)*osr` points. -/
def sawtoothScalar {R : Type} [Field R] (cfg : Config) (f amp cm : ℚ) :
    Except String (Mat R × Config) :=
  if f = 0 then .error "ZeroDivisionError"
  else
    .ok ((List.range ((cfg.nsamp + cfg.extra_sampl) * cfg.sig_osr)).map
      (fun k =>
        (linT cfg.nsamp cfg.fs ((cfg.nsamp + cfg.extra_sampl) * cfg.sig_osr) k +
          cfg.after,
         ((sawSig cfg.slopetype cfg.nsamp cfg.fs
            ((cfg.nsamp + cfg.extra_sampl) * cfg.sig_osr) f amp cm k : ℚ) : R))),
      cfg)

/-- The sawtooth branch of `main` (lines 206-220). -/
def sawtoothPath {R : Type} [Field R] (cfg : Config) : Except String (Mat R × Config) :=
  match cfg.sig_freq, cfg.sig_amp, cfg.sig_cm with
  | .scalar f, .scalar amp, .scalar cm => sawtoothScalar cfg f amp cm
  | _, _, _ => .error "TypeError"  -- list-valued fields in the sawtooth path

/-- Direct-form FIR filtering `scsig.lfilter(b, 1, x)` with zero initial
state: `y[n] = sum over k of b[k]*x[n-k]`. -/
def lfilter {R : Type} [Field R] (b : List R) (x : ℕ → R) (n : ℕ) : R :=
  ((List.range b.length).map (fun k => if k ≤ n then b.getD k 0 * x (n - k) else 0)).sum

/-- The band-limited noise branch of `main` (lines 171-184).  Line 173,
`self.nsamp += self.extra_sampl`, mutates the configuration. -/
def bpnoisePath {R : Type} [Field R] (env : Env R) (cfg : Config) :
    Except String (Mat R × Config) :=
  match cfg.sig_amp, cfg.sig_cm with
  | .scalar amp, .scalar cm =>
    let n := cfg.nsamp + cfg.extra_sampl
    let cfg1 := { cfg with nsamp := n }
    let rows := n * cfg.sig_osr
    let t : ℕ → ℚ := linT n cfg.fs rows
    let noise : ℕ → R := fun i => ((amp : R) / (33 / 5)) * env.randn i + (cm : R)
    let sig : ℕ → R := lfilter env.bpf noise
    .ok ((List.range rows).map (fun k => (t k + cfg.after, sig k)), cfg1)
  | _, _ => .error "TypeError"  -- `self.sig_amp/6.6` with a list amplitude

/-- Embeds `signal_generator.main`: dispatch on `self.sigtype`, in source
order.  Returns the generated matrix and the post-call configuration (the
Python method mutates `self` in place); a raised exception or the fatal
log for an unsupported type is an `error`. -/
def main {R : Type} [Field R] (env : Env R) (cfg : Config) (fuel : ℕ) :
    Except String (Mat R × Config) :=
  if cfg.sigtype = "sine" ∨ cfg.sigtype = "sine_samp" then sinePath env cfg fuel
  else if cfg.sigtype = "bpnoise" then bpnoisePath env cfg
  else if cfg.sigtype = "pulse" then pulsePath env cfg
  else if cfg.sigtype = "sawtooth" then sawtoothPath cfg
  else .error "Fatal: signal type not supported"

/-- The final assignment `self.IOS.Members['out'].Data = outmat` is only
reached when synthesis does not raise; a failed call leaves the output
slot untouched (with an unsupported sigtype, `outmat` is unbound, so the
assignment itself raises even if the fatal log returns). -/
def runOut {R : Type} (res : Except String (Mat R × Config)) (prev : Option (Mat R)) :
    Option (Mat R) :=
  match res with
  | .ok (m, _) => some m
  | .error _ => prev

/-- A canonical rational environment for concrete evaluations (the claims
settled on it do not depend on the transcendental values). -/
def envQ : Env ℚ :=
  { sinf := fun _ => 0, piR := 0, snoise := fun _ => 0, randn := fun _ => 0,
    bpf := [], jit := fun _ => 0 }

/-! ## Generic list-indexing helpers -/

theorem getD_map_range {α : Type} {m i : ℕ} (g : ℕ → α) (d : α) (h : i < m) :
    (((List.range m).map g).getD i d) = g i := by
  rw [List.getD_eq_getElem?_getD, List.getElem?_map]
  rw [List.getElem?_range h]
  rfl

theorem length_map_range {α : Type} (m : ℕ) (g : ℕ → α) :
    ((List.range m).map g).length = m := by
  simp

/-! ## The pulse path: vertex-level description -/

/-- Entries of a successful pulse synthesis, jitter included: period `k`
occupies rows `base+4k .. base+4k+3` (`base = 1` exactly when the `after`
anchor is prepended), with values low, high, high, low; the second rising
vertex receives the period's first jitter sample twice, and the falling
vertices accumulate it further (see C5). -/
theorem pulsePath_spec {R : Type} [Field R] (env : Env R) (cfg : Config) (fuel : ℕ)
    (f : ℚ) (hst : cfg.sigtype = "pulse") (hf : cfg.sig_freq = .scalar f)
    (hf0 : f ≠ 0) :
    ∃ mat : Mat R,
      main env cfg fuel = .ok (mat, cfg) ∧
      mat.length = 4 * (cfg.nsamp + cfg.extra_sampl) +
        (if cfg.after = 0 then 0 else 1) ∧
      (cfg.after ≠ 0 → mat.getD 0 ((0 : ℚ), (0 : R)) = ((0 : ℚ), (cfg.low : R))) ∧
      (∀ k, k < cfg.nsamp + cfg.extra_sampl →
        mat.getD ((if cfg.after = 0 then 0 else 1) + 4 * k) ((0 : ℚ), (0 : R)) =
          ((k : ℚ) / f + cfg.after + effJit env cfg (2 * k), (cfg.low : R)) ∧
        mat.getD ((if cfg.after = 0 then 0 else 1) + 4 * k + 1) ((0 : ℚ), (0 : R)) =
          ((k : ℚ) / f + cfg.after + cfg.trise + 2 * effJit env cfg (2 * k),
            (cfg.high : R)) ∧
        mat.getD ((if cfg.after = 0 then 0 else 1) + 4 * k + 2) ((0 : ℚ), (0 : R)) =
          ((k : ℚ) / f + cfg.after + cfg.duty / f + 2 * effJit env cfg (2 * k) +
            effJit env cfg (2 * k + 1), (cfg.high : R)) ∧
        mat.getD ((if cfg.after = 0 then 0 else 1) + 4 * k + 3) ((0 : ℚ), (0 : R)) =
          ((k : ℚ) / f + cfg.after + cfg.duty / f + cfg.tfall +
            2 * effJit env cfg (2 * k) + 2 * effJit env cfg (2 * k + 1),
            (cfg.low : R))) := by
  have hmain : main env cfg fuel = pulseScalar env cfg f := by
    unfold main
    rw [if_neg (by rw [hst]; simp), if_neg (by rw [hst]; simp), if_pos hst]
    unfold pulsePath
    rw [hf]
  set n := cfg.nsamp + cfg.extra_sampl with hn
  set core : Mat R := (List.range (4 * n)).map (fun idx =>
    (pulseT cfg f (effJit env cfg) (idx % 4) (idx / 4), pulseV cfg (idx % 4)))
    with hcore
  have hps : pulseScalar env cfg f =
      .ok (if cfg.after = 0 then core else ((0 : ℚ), (cfg.low : R)) :: core, cfg) := by
    rw [hcore]
    unfold pulseScalar
    rw [if_neg hf0]
  have hcorelen : core.length = 4 * n := by
    rw [hcore]
    simp
  have hcoreget : ∀ k, k < n →
      core.getD (4 * k) ((0 : ℚ), (0 : R)) =
        ((k : ℚ) / f + cfg.after + effJit env cfg (2 * k), (cfg.low : R)) ∧
      core.getD (4 * k + 1) ((0 : ℚ), (0 : R)) =
        ((k : ℚ) / f + cfg.after + cfg.trise + 2 * effJit env cfg (2 * k),
          (cfg.high : R)) ∧
      core.getD (4 * k + 2) ((0 : ℚ), (0 : R)) =
        ((k : ℚ) / f + cfg.after + cfg.duty / f + 2 * effJit env cfg (2 * k) +
          effJit env cfg (2 * k + 1), (cfg.high : R)) ∧
      core.getD (4 * k + 3) ((0 : ℚ), (0 : R)) =
        ((k : ℚ) / f + cfg.after + cfg.duty / f + cfg.tfall +
          2 * effJit env cfg (2 * k) + 2 * effJit env cfg (2 * k + 1),
          (cfg.low : R)) := by
    intro k hk
    have g0 := getD_map_range (m := 4 * n) (i := 4 * k)
      (fun idx => (pulseT cfg f (effJit env cfg) (idx % 4) (idx / 4),
        pulseV cfg (idx % 4))) ((0 : ℚ), (0 : R)) (by omega)
    have g1 := getD_map_range (m := 4 * n) (i := 4 * k + 1)
      (fun idx => (pulseT cfg f (effJit env cfg) (idx % 4) (idx / 4),
        pulseV cfg (idx % 4))) ((0 : ℚ), (0 : R)) (by omega)
    have g2 := getD_map_range (m := 4 * n) (i := 4 * k + 2)
      (fun idx => (pulseT cfg f (effJit env cfg) (idx % 4) (idx / 4),
        pulseV cfg (idx % 4))) ((0 : ℚ), (0 : R)) (by omega)
    have g3 := getD_map_range (m := 4 * n) (i := 4 * k + 3)
      (fun idx => (pulseT cfg f (effJit env cfg) (idx % 4) (idx / 4),
        pulseV cfg (idx % 4))) ((0 : ℚ), (0 : R)) (by omega)
    have m0 : (4 * k) % 4 = 0 := by omega
    have d0 : (4 * k) / 4 = k := by omega
    have m1 : (4 * k + 1) % 4 = 1 := by omega
    have d1 : (4 * k + 1) / 4 = k := by omega
    have m2 : (4 * k + 2) % 4 = 2 := by omega
    have d2 : (4 * k + 2) / 4 = k := by omega
    have m3 : (4 * k + 3) % 4 = 3 := by omega
    have d3 : (4 * k + 3) / 4 = k := by omega
    simp only [m0, d0] at g0
    simp only [m1, d1] at g1
    simp only [m2, d2] at g2
    simp only [m3, d3] at g3
    rw [hcore]
    refine ⟨?_, ?_, ?_, ?_⟩
    · rw [g0]
      simp [pulseT, pulseV]
    · rw [g1]
      simp only [pulseT, pulseV, Prod.mk.injEq, and_true]
      ring
    · rw [g2]
      simp only [pulseT, pulseV, Prod.mk.injEq, and_true]
      ring
    · rw [g3]
      simp only [pulseT, pulseV, Prod.mk.injEq, and_true]
      ring
  by_cases hafter : cfg.after = 0
  · refine ⟨core, ?_, ?_, ?_, ?_⟩
    · rw [hmain, hps, if_pos hafter]
    · rw [hcorelen, if_pos hafter]
      omega
    · intro hcontra
      exact absurd hafter hcontra
    · intro k hk
      simp only [if_pos hafter, Nat.zero_add]
      exact hcoreget k hk
  · refine ⟨((0 : ℚ), (cfg.low : R)) :: core, ?_, ?_, ?_, ?_⟩
    · rw [hmain, hps, if_neg hafter]
    · rw [List.length_cons, hcorelen, if_neg hafter]
    · intro _
      rfl
    · intro k hk
      obtain ⟨q0, q1, q2, q3⟩ := hcoreget k hk
      simp only [if_neg hafter]
      have e0 : 1 + 4 * k = 4 * k + 1 := by omega
      have e1 : 1 + 4 * k + 1 = 4 * k + 1 + 1 := by omega
      have e2 : 1 + 4 * k + 2 = 4 * k + 2 + 1 := by omega
      have e3 : 1 + 4 * k + 3 = 4 * k + 3 + 1 := by omega
      refine ⟨?_, ?_, ?_, ?_⟩
      · rw [e0, List.getD_cons_succ]
        exact q0
      · rw [e1, List.getD_cons_succ]
        exact q1
      · rw [e2, List.getD_cons_succ]
        exact q2
      · rw [e3, List.getD_cons_succ]
        exact q3

/-- C3: with jitter disabled (absent or zero `jitter_sd`), each period `k`
contributes four vertices valued low, high, high, low at timestamps
`k/f + after`, `+trise`, rise-start `+duty/f`, and `+tfall`; corresponding
vertices of consecutive periods are exactly `1/sig_freq` apart. -/
theorem C3_pulse_no_jitter {R : Type} [Field R] (env : Env R) (cfg : Config)
    (fuel : ℕ) (f : ℚ) (hst : cfg.sigtype = "pulse") (hf : cfg.sig_freq = .scalar f)
    (hf0 : f ≠ 0) (hjd : jitterEnabled cfg.jitter_sd = false) :
    ∃ mat : Mat R,
      main env cfg fuel = .ok (mat, cfg) ∧
      mat.length = 4 * (cfg.nsamp + cfg.extra_sampl) +
        (if cfg.after = 0 then 0 else 1) ∧
      (∀ k, k < cfg.nsamp + cfg.extra_sampl →
        mat.getD ((if cfg.after = 0 then 0 else 1) + 4 * k) ((0 : ℚ), (0 : R)) =
          ((k : ℚ) / f + cfg.after, (cfg.low : R)) ∧
        mat.getD ((if cfg.after = 0 then 0 else 1) + 4 * k + 1) ((0 : ℚ), (0 : R)) =
          ((k : ℚ) / f + cfg.after + cfg.trise, (cfg.high : R)) ∧
        mat.getD ((if cfg.after = 0 then 0 else 1) + 4 * k + 2) ((0 : ℚ), (0 : R)) =
          ((k : ℚ) / f + cfg.after + cfg.duty / f, (cfg.high : R)) ∧
        mat.getD ((if cfg.after = 0 then 0 else 1) + 4 * k + 3) ((0 : ℚ), (0 : R)) =
          ((k : ℚ) / f + cfg.after + cfg.duty / f + cfg.tfall, (cfg.low : R))) ∧
      (∀ k r, k + 1 < cfg.nsamp + cfg.extra_sampl → r < 4 →
        (mat.getD ((if cfg.after = 0 then 0 else 1) + 4 * (k + 1) + r)
            ((0 : ℚ), (0 : R))).1 -
        (mat.getD ((if cfg.after = 0 then 0 else 1) + 4 * k + r)
            ((0 : ℚ), (0 : R))).1 = 1 / f) := by
  obtain ⟨mat, hmain, hlen, hanchor, hent⟩ := pulsePath_spec env cfg fuel f hst hf hf0
  have hzero : effJit env cfg = fun _ => (0 : ℚ) := by
    funext i
    simp [effJit, hjd]
  rw [hzero] at hent
  simp only [mul_zero, add_zero] at hent
  refine ⟨mat, hmain, hlen, ?_, ?_⟩
  · intro k hk
    exact hent k hk
  · intro k r hk hr
    obtain ⟨p0, p1, p2, p3⟩ := hent k (by omega)
    obtain ⟨s0, s1, s2, s3⟩ := hent (k + 1) (by omega)
    interval_cases r
    · simp only [Nat.add_zero]
      rw [s0, p0]
      push_cast
      ring
    · rw [s1, p1]
      push_cast
      ring
    · rw [s2, p2]
      push_cast
      ring
    · rw [s3, p3]
      push_cast
      ring

/-- The config of the C3 example: 1 GHz pulse, 50% duty, 5 ps edges, one
period, no jitter, no offset. -/
def cfgC3 : Config :=
  { sigtype := "pulse", sig_freq := .scalar 1000000000, nsamp := 1 }

/-- Witness for C3: the example configuration yields exactly 4 rows with
values [0,1,1,0] and timestamps [0, 5e-12, 0.5e-9, 0.505e-9]. -/
theorem C3_pulse_no_jitter_witness :
    ∃ mat : Mat ℚ, main envQ cfgC3 0 = .ok (mat, cfgC3) ∧ mat.length = 4 ∧
      mat.getD 0 ((0 : ℚ), (0 : ℚ)) = (0, 0) ∧
      mat.getD 1 ((0 : ℚ), (0 : ℚ)) = (1 / 200000000000, 1) ∧
      mat.getD 2 ((0 : ℚ), (0 : ℚ)) = (1 / 2000000000, 1) ∧
      mat.getD 3 ((0 : ℚ), (0 : ℚ)) = (101 / 200000000000, 0) := by
  obtain ⟨mat, hmain, hlen, hent, hspace⟩ :=
    C3_pulse_no_jitter (R := ℚ) envQ cfgC3 0 1000000000 rfl rfl (by norm_num) rfl
  obtain ⟨q0, q1, q2, q3⟩ := hent 0 (by norm_num [cfgC3])
  norm_num [cfgC3] at q0 q1 q2 q3 hlen
  exact ⟨mat, hmain, hlen, by simpa using q0, by simpa using q1,
    by simpa using q2, by simpa using q3⟩

/-- C5 (amended): with jitter enabled, writing `j₁ = jit(2k)` and
`j₂ = jit(2k+1)` for period `k`'s two Gaussian draws, the code adds `j₁`
once to the first rising vertex but twice to the second one, and the
falling pair receives `2·j₁ + j₂` and `2·j₁ + 2·j₂` respectively, because
each strided timestamp row is built on top of the previous one, which
already contains its jitter; only period `k`'s own two draws enter period
`k`'s vertices (no cross-period accumulation). -/
theorem C5_pulse_jitter_accumulation {R : Type} [Field R] (env : Env R)
    (cfg : Config) (fuel : ℕ) (f : ℚ) (hst : cfg.sigtype = "pulse")
    (hf : cfg.sig_freq = .scalar f) (hf0 : f ≠ 0)
    (hje : jitterEnabled cfg.jitter_sd = true) :
    ∃ mat : Mat R,
      main env cfg fuel = .ok (mat, cfg) ∧
      (∀ k, k < cfg.nsamp + cfg.extra_sampl →
        mat.getD ((if cfg.after = 0 then 0 else 1) + 4 * k) ((0 : ℚ), (0 : R)) =
          ((k : ℚ) / f + cfg.after + env.jit (2 * k), (cfg.low : R)) ∧
        mat.getD ((if cfg.after = 0 then 0 else 1) + 4 * k + 1) ((0 : ℚ), (0 : R)) =
          ((k : ℚ) / f + cfg.after + cfg.trise + 2 * env.jit (2 * k), (cfg.high : R)) ∧
        mat.getD ((if cfg.after = 0 then 0 else 1) + 4 * k + 2) ((0 : ℚ), (0 : R)) =
          ((k : ℚ) / f + cfg.after + cfg.duty / f + 2 * env.jit (2 * k) +
            env.jit (2 * k + 1), (cfg.high : R)) ∧
        mat.getD ((if cfg.after = 0 then 0 else 1) + 4 * k + 3) ((0 : ℚ), (0 : R)) =
          ((k : ℚ) / f + cfg.after + cfg.duty / f + cfg.tfall +
            2 * env.jit (2 * k) + 2 * env.jit (2 * k + 1), (cfg.low : R))) := by
  obtain ⟨mat, hmain, hlen, hanchor, hent⟩ := pulsePath_spec env cfg fuel f hst hf hf0
  have hjit : effJit env cfg = env.jit := by
    funext i
    simp [effJit, hje]
  rw [hjit] at hent
  exact ⟨mat, hmain, hent⟩

/-- The environment of the C5 counterexample: the first Gaussian draw is
1/16, all later ones 1/32. -/
def envJ : Env ℚ :=
  { envQ with jit := fun i => if i = 0 then 1 / 16 else 1 / 32 }

/-- The config of the C5 counterexample: unit-frequency pulse with
`trise = 1/4` and jitter enabled. -/
def cfgC5 : Config :=
  { sigtype := "pulse", sig_freq := .scalar 1, nsamp := 1,
    jitter_sd := some 1, trise := 1 / 4, tfall := 1 / 8 }

/-- Witness for the amended C5 at a concrete jittered pulse config. -/
theorem C5_pulse_jitter_accumulation_witness :
    ∃ mat : Mat ℚ, main envJ cfgC5 0 = .ok (mat, cfgC5) ∧
      (∀ k, k < cfgC5.nsamp + cfgC5.extra_sampl →
        mat.getD ((if cfgC5.after = 0 then 0 else 1) + 4 * k) ((0 : ℚ), (0 : ℚ)) =
          ((k : ℚ) / 1 + cfgC5.after + envJ.jit (2 * k), (cfgC5.low : ℚ)) ∧
        mat.getD ((if cfgC5.after = 0 then 0 else 1) + 4 * k + 1) ((0 : ℚ), (0 : ℚ)) =
          ((k : ℚ) / 1 + cfgC5.after + cfgC5.trise + 2 * envJ.jit (2 * k),
            (cfgC5.high : ℚ)) ∧
        mat.getD ((if cfgC5.after = 0 then 0 else 1) + 4 * k + 2) ((0 : ℚ), (0 : ℚ)) =
          ((k : ℚ) / 1 + cfgC5.after + cfgC5.duty / 1 + 2 * envJ.jit (2 * k) +
            envJ.jit (2 * k + 1), (cfgC5.high : ℚ)) ∧
        mat.getD ((if cfgC5.after = 0 then 0 else 1) + 4 * k + 3) ((0 : ℚ), (0 : ℚ)) =
          ((k : ℚ) / 1 + cfgC5.after + cfgC5.duty / 1 + cfgC5.tfall +
            2 * envJ.jit (2 * k) + 2 * envJ.jit (2 * k + 1), (cfgC5.low : ℚ))) :=
  C5_pulse_jitter_accumulation envJ cfgC5 0 1 rfl rfl (by norm_num) rfl

/-- C5 counterexample: with first jitter draw `1/16`, the second rising
vertex lands at `trise + 2*(1/16) = 3/8`, not at the claimed zero-jitter
timestamp plus the draw added once, `trise + 1/16 = 5/16`. -/
theorem C5_counterexample :
    ((main envJ cfgC5 0).toOption.map
      (fun p => (p.1.getD 1 ((0 : ℚ), (0 : ℚ))).1)) = some (3 / 8) ∧
    (3 / 8 : ℚ) ≠ ((0 : ℚ) / 1 + 0 + 1 / 4) + 1 / 16 := by
  obtain ⟨mat, hmain, hent⟩ :=
    C5_pulse_jitter_accumulation (R := ℚ) envJ cfgC5 0 1 rfl rfl (by norm_num) rfl
  obtain ⟨-, q1, -, -⟩ := hent 0 (by norm_num [cfgC5])
  norm_num [cfgC5, envJ, envQ] at q1
  have q1' : mat.getD 1 ((0 : ℚ), (0 : ℚ)) = (3 / 8, 1) := by simpa using q1
  constructor
  · rw [hmain]
    show some ((mat.getD 1 ((0 : ℚ), (0 : ℚ))).1) = some (3 / 8)
    rw [q1']
  · norm_num

/-- C10: an unsupported signal type is fatal — synthesis produces no
matrix and the output slot keeps its previous value. -/
theorem C10_unsupported_fatal {R : Type} [Field R] (env : Env R) (cfg : Config)
    (fuel : ℕ) (h1 : cfg.sigtype ≠ "sine") (h2 : cfg.sigtype ≠ "sine_samp")
    (h3 : cfg.sigtype ≠ "bpnoise") (h4 : cfg.sigtype ≠ "pulse")
    (h5 : cfg.sigtype ≠ "sawtooth") :
    main env cfg fuel = .error "Fatal: signal type not supported" ∧
    ∀ prev : Option (Mat R), runOut (main env cfg fuel) prev = prev := by
  have hm : main env cfg fuel = .error "Fatal: signal type not supported" := by
    unfold main
    rw [if_neg (by simp [h1, h2]), if_neg h3, if_neg h4, if_neg h5]
  refine ⟨hm, fun prev => ?_⟩
  rw [hm]
  rfl

/-- The config of the C10 witness: an unknown signal type. -/
def cfgC10 : Config := { sigtype := "square" }

/-- Witness for C10 at `sigtype = "square"`. -/
theorem C10_unsupported_fatal_witness :
    main (R := ℚ) envQ cfgC10 0 = .error "Fatal: signal type not supported" ∧
    ∀ prev : Option (Mat ℚ), runOut (main envQ cfgC10 0) prev = prev :=
  C10_unsupported_fatal envQ cfgC10 0 (by decide) (by decide) (by decide)
    (by decide) (by decide)

/-! ## The sawtooth path -/

/-- What a successful sawtooth synthesis returns. -/
theorem sawtoothPath_spec {R : Type} [Field R] (env : Env R) (cfg : Config)
    (fuel : ℕ) (f amp cm : ℚ) (hst : cfg.sigtype = "sawtooth")
    (hf : cfg.sig_freq = .scalar f) (ha : cfg.sig_amp = .scalar amp)
    (hc : cfg.sig_cm = .scalar cm) (hf0 : f ≠ 0) :
    main env cfg fuel =
      .ok ((List.range ((cfg.nsamp + cfg.extra_sampl) * cfg.sig_osr)).map
        (fun k =>
          (linT cfg.nsamp cfg.fs ((cfg.nsamp + cfg.extra_sampl) * cfg.sig_osr) k +
            cfg.after,
           ((sawSig cfg.slopetype cfg.nsamp cfg.fs
              ((cfg.nsamp + cfg.extra_sampl) * cfg.sig_osr) f amp cm k : ℚ) : R))),
        cfg) := by
  have hmain : main env cfg fuel = sawtoothScalar cfg f amp cm := by
    unfold main
    rw [if_neg (by rw [hst]; simp), if_neg (by rw [hst]; simp),
      if_neg (by rw [hst]; simp), if_pos hst]
    unfold sawtoothPath
    rw [hf, ha, hc]
  rw [hmain]
  unfold sawtoothScalar
  rw [if_neg hf0]

/-- C9: for every sawtooth configuration, flipping `slopetype` from
rising to falling yields the exact mirror image of the output around the
common mode: same timestamps, and `falling(t) - cm = -(rising(t) - cm)`
(here even exactly, not merely within tolerance). -/
theorem C9_sawtooth_mirror {R : Type} [Field R] [CharZero R] (env : Env R) (cfg : Config)
    (fuel : ℕ) (f amp cm : ℚ) (hst : cfg.sigtype = "sawtooth")
    (hf : cfg.sig_freq = .scalar f) (ha : cfg.sig_amp = .scalar amp)
    (hc : cfg.sig_cm = .scalar cm) (hf0 : f ≠ 0)
    (hslope : cfg.slopetype = "rising") :
    ∃ matR matF : Mat R,
      main env cfg fuel = .ok (matR, cfg) ∧
      main env { cfg with slopetype := "falling" } fuel =
        .ok (matF, { cfg with slopetype := "falling" }) ∧
      matR.length = (cfg.nsamp + cfg.extra_sampl) * cfg.sig_osr ∧
      matF.length = matR.length ∧
      (∀ k, k < (cfg.nsamp + cfg.extra_sampl) * cfg.sig_osr →
        (matF.getD k ((0 : ℚ), (0 : R))).1 = (matR.getD k ((0 : ℚ), (0 : R))).1 ∧
        (matF.getD k ((0 : ℚ), (0 : R))).2 - (cm : R) =
          -((matR.getD k ((0 : ℚ), (0 : R))).2 - (cm : R))) := by
  set rows := (cfg.nsamp + cfg.extra_sampl) * cfg.sig_osr with hrows
  have hR := sawtoothPath_spec env cfg fuel f amp cm hst hf ha hc hf0
  have hF := sawtoothPath_spec env { cfg with slopetype := "falling" } fuel f amp cm
    hst hf ha hc hf0
  refine ⟨_, _, hR, hF, by simp, by simp, ?_⟩
  intro k hk
  rw [getD_map_range _ _ hk, getD_map_range _ _ hk]
  constructor
  · rfl
  · show ((sawSig "falling" cfg.nsamp cfg.fs rows f amp cm k : ℚ) : R) - (cm : R) =
      -(((sawSig cfg.slopetype cfg.nsamp cfg.fs rows f amp cm k : ℚ) : R) - (cm : R))
    rw [hslope]
    have hq2 : sawSig "falling" cfg.nsamp cfg.fs rows f amp cm k +
        sawSig "rising" cfg.nsamp cfg.fs rows f amp cm k = 2 * cm := by
      unfold sawSig
      rw [if_pos rfl, if_neg (by decide)]
      ring
    have hr : ((sawSig "falling" cfg.nsamp cfg.fs rows f amp cm k : ℚ) : R) +
        ((sawSig "rising" cfg.nsamp cfg.fs rows f amp cm k : ℚ) : R) =
          2 * (cm : R) := by
      rw [← Rat.cast_add, hq2, Rat.cast_mul, Rat.cast_ofNat]
    linear_combination hr

/-- The config of the C9 witness: a rising unit sawtooth. -/
def cfgC9 : Config :=
  { sigtype := "sawtooth", sig_freq := .scalar 1, sig_amp := .scalar 1,
    sig_cm := .scalar (1 / 4), nsamp := 4, fs := 4 }

/-- Witness for C9 at a concrete sawtooth configuration. -/
theorem C9_sawtooth_mirror_witness :
    ∃ matR matF : Mat ℚ,
      main envQ cfgC9 0 = .ok (matR, cfgC9) ∧
      main envQ { cfgC9 with slopetype := "falling" } 0 =
        .ok (matF, { cfgC9 with slopetype := "falling" }) ∧
      matR.length = (cfgC9.nsamp + cfgC9.extra_sampl) * cfgC9.sig_osr ∧
      matF.length = matR.length ∧
      (∀ k, k < (cfgC9.nsamp + cfgC9.extra_sampl) * cfgC9.sig_osr →
        (matF.getD k ((0 : ℚ), (0 : ℚ))).1 = (matR.getD k ((0 : ℚ), (0 : ℚ))).1 ∧
        (matF.getD k ((0 : ℚ), (0 : ℚ))).2 - ((1 / 4 : ℚ) : ℚ) =
          -((matR.getD k ((0 : ℚ), (0 : ℚ))).2 - ((1 / 4 : ℚ) : ℚ))) :=
  C9_sawtooth_mirror envQ cfgC9 0 1 1 (1 / 4) rfl rfl rfl rfl (by norm_num) rfl

/-! ## Post-call configuration state (C8) -/

theorem except_bind_ok {ε α β : Type} {x : Except ε α} {g : α → Except ε β} {b : β}
    (h : (x >>= g) = .ok b) : ∃ a, x = .ok a ∧ g a = .ok b := by
  cases x with
  | error e => simp [Bind.bind, Except.bind] at h
  | ok a =>
    refine ⟨a, rfl, ?_⟩
    simpa [Bind.bind, Except.bind] using h

/-- The pulse path never mutates the configuration. -/
theorem pulsePath_post {R : Type} [Field R] {env : Env R} {cfg : Config}
    {m : Mat R} {c' : Config} (h : pulsePath env cfg = .ok (m, c')) : c' = cfg := by
  unfold pulsePath at h
  split at h
  · -- list frequency: TypeError
    simp at h
  · unfold pulseScalar at h
    split at h
    · simp at h
    · simp only [Except.ok.injEq, Prod.mk.injEq] at h
      exact h.2.symm

/-- The sawtooth path never mutates the configuration. -/
theorem sawtoothPath_post {R : Type} [Field R] {cfg : Config}
    {m : Mat R} {c' : Config} (h : sawtoothPath cfg = .ok (m, c')) : c' = cfg := by
  unfold sawtoothPath at h
  split at h
  · unfold sawtoothScalar at h
    split at h
    · simp at h
    · simp only [Except.ok.injEq, Prod.mk.injEq] at h
      exact h.2.symm
  · simp at h

/-- The bpnoise path adds `extra_sampl` to `nsamp` and changes nothing
else. -/
theorem bpnoisePath_post {R : Type} [Field R] {env : Env R} {cfg : Config}
    {m : Mat R} {c' : Config} (h : bpnoisePath env cfg = .ok (m, c')) :
    c' = { cfg with nsamp := cfg.nsamp + cfg.extra_sampl } := by
  unfold bpnoisePath at h
  split at h
  · simp only [Except.ok.injEq, Prod.mk.injEq] at h
    exact h.2.symm
  · simp at h

/-- Every successful exit of `sineFinish` carries the updated tone
lists. -/
theorem sineFinish_post {R : Type} [Field R] {cfg : Config}
    {r : List ℚ × List ℚ × List ℚ × (ℕ → R)} {m : Mat R} {c' : Config}
    (h : sineFinish cfg r = .ok (m, c')) :
    c' = { cfg with
      sig_freq := .list r.1, sig_amp := .list r.2.1, sig_cm := .list r.2.2.1 } := by
  unfold sineFinish at h
  split at h
  · split at h
    · simp only [Except.ok.injEq, Prod.mk.injEq] at h
      exact h.2.symm
    · split at h
      · simp at h
      · simp only [Except.ok.injEq, Prod.mk.injEq] at h
        exact h.2.symm
  · simp only [Except.ok.injEq, Prod.mk.injEq] at h
    exact h.2.symm

/-- The sine / sampled-sine path rewrites the three tone lists (and, for
`sine_samp`, the oversampling ratio) and changes nothing else. -/
theorem sinePath_post {R : Type} [Field R] {env : Env R} {cfg0 : Config}
    {fuel : ℕ} {m : Mat R} {c' : Config} (h : sinePath env cfg0 fuel = .ok (m, c')) :
    ∃ fr a c : List ℚ,
      c' = { (if cfg0.sigtype = "sine_samp" ∧ cfg0.sig_osr ≠ 1 then
              { cfg0 with sig_osr := 1 } else cfg0) with
             sig_freq := .list fr, sig_amp := .list a, sig_cm := .list c } := by
  unfold sinePath at h
  set cfg := if cfg0.sigtype = "sine_samp" ∧ cfg0.sig_osr ≠ 1 then
    { cfg0 with sig_osr := 1 } else cfg0 with hcfg
  simp only [] at h
  rcases hsc : sineCore env cfg fuel with e | r
  · rw [hsc] at h
    simp at h
  · rw [hsc] at h
    have := sineFinish_post (h : sineFinish cfg r = .ok (m, c'))
    exact ⟨r.1, r.2.1, r.2.2.1, this⟩

/-- C8 (amended): after any synthesis call that returns, every
configuration field is preserved except: the sine path replaces
`sig_freq`, `sig_amp` and `sig_cm` by (possibly resolved / broadcast)
lists, the sampled-sine path resets `sig_osr` to 1, and the bpnoise path
adds `extra_sampl` to `nsamp`. -/
theorem C8_config_mutation {R : Type} [Field R] (env : Env R) (cfg : Config)
    (fuel : ℕ) (m : Mat R) (c' : Config)
    (h : main env cfg fuel = .ok (m, c')) :
    c'.sig_phase = cfg.sig_phase ∧ c'.tau = cfg.tau ∧ c'.fs = cfg.fs ∧
    c'.snr = cfg.snr ∧ c'.jitter_sd = cfg.jitter_sd ∧
    c'.coherent = cfg.coherent ∧ c'.sigtype = cfg.sigtype ∧
    c'.high = cfg.high ∧ c'.low = cfg.low ∧ c'.after = cfg.after ∧
    c'.duty = cfg.duty ∧ c'.trise = cfg.trise ∧ c'.tfall = cfg.tfall ∧
    c'.slopetype = cfg.slopetype ∧ c'.extra_sampl = cfg.extra_sampl ∧
    (cfg.sigtype ≠ "bpnoise" → c'.nsamp = cfg.nsamp) ∧
    (cfg.sigtype = "bpnoise" → c'.nsamp = cfg.nsamp + cfg.extra_sampl) ∧
    (cfg.sigtype ≠ "sine_samp" → c'.sig_osr = cfg.sig_osr) ∧
    (cfg.sigtype ≠ "sine" → cfg.sigtype ≠ "sine_samp" →
      c'.sig_freq = cfg.sig_freq ∧ c'.sig_amp = cfg.sig_amp ∧
        c'.sig_cm = cfg.sig_cm) := by
  unfold main at h
  by_cases hs : cfg.sigtype = "sine" ∨ cfg.sigtype = "sine_samp"
  · rw [if_pos hs] at h
    obtain ⟨fr, a, c, hc'⟩ := sinePath_post h
    subst hc'
    by_cases hosr : cfg.sigtype = "sine_samp" ∧ cfg.sig_osr ≠ 1
    · rw [if_pos hosr]
      refine ⟨rfl, rfl, rfl, rfl, rfl, rfl, rfl, rfl, rfl, rfl, rfl, rfl, rfl,
        rfl, rfl, fun _ => rfl, ?_, ?_, ?_⟩
      · intro hb
        exact absurd hb (by rcases hs with hs | hs <;> rw [hs] <;> simp)
      · intro hns
        exact absurd hosr.1 hns
      · intro h1 h2
        exact absurd hosr.1 h2
    · rw [if_neg hosr]
      refine ⟨rfl, rfl, rfl, rfl, rfl, rfl, rfl, rfl, rfl, rfl, rfl, rfl, rfl,
        rfl, rfl, fun _ => rfl, ?_, fun _ => rfl, ?_⟩
      · intro hb
        exact absurd hb (by rcases hs with hs | hs <;> rw [hs] <;> simp)
      · intro h1 h2
        rcases hs with hs | hs
        · exact absurd hs h1
        · exact absurd hs h2
  · rw [if_neg hs] at h
    by_cases hb : cfg.sigtype = "bpnoise"
    · rw [if_pos hb] at h
      have hc' := bpnoisePath_post h
      subst hc'
      exact ⟨rfl, rfl, rfl, rfl, rfl, rfl, rfl, rfl, rfl, rfl, rfl, rfl, rfl,
        rfl, rfl, fun hn => absurd hb hn, fun _ => rfl,
        fun _ => rfl, fun _ _ => ⟨rfl, rfl, rfl⟩⟩
    · rw [if_neg hb] at h
      by_cases hp : cfg.sigtype = "pulse"
      · rw [if_pos hp] at h
        have hc' := pulsePath_post h
        subst hc'
        exact ⟨rfl, rfl, rfl, rfl, rfl, rfl, rfl, rfl, rfl, rfl, rfl, rfl, rfl,
          rfl, rfl, fun _ => rfl, fun hn => absurd hn hb,
          fun _ => rfl, fun _ _ => ⟨rfl, rfl, rfl⟩⟩
      · rw [if_neg hp] at h
        by_cases hw : cfg.sigtype = "sawtooth"
        · rw [if_pos hw] at h
          have hc' := sawtoothPath_post h
          subst hc'
          exact ⟨rfl, rfl, rfl, rfl, rfl, rfl, rfl, rfl, rfl, rfl, rfl, rfl, rfl,
            rfl, rfl, fun _ => rfl, fun hn => absurd hn hb,
            fun _ => rfl, fun _ _ => ⟨rfl, rfl, rfl⟩⟩
        · rw [if_neg hw] at h
          simp at h

/-- The config of the C8 counterexample: bpnoise with a nonzero
`extra_sampl`. -/
def cfgC8 : Config := { sigtype := "bpnoise", nsamp := 2, extra_sampl := 1 }

/-- C8 counterexample: the bpnoise path mutates `self.nsamp` in place
(line 173: `self.nsamp += self.extra_sampl`), so `nsamp` does not hold the
same value after the call — contradicting the claim that the frequency
list is the only mutated configuration state. -/
theorem C8_counterexample :
    ((main envQ cfgC8 0).toOption.map (fun p => p.2.nsamp)) = some 3 ∧
    cfgC8.nsamp = 2 := by
  constructor
  · rfl
  · rfl

/-- Witness for the amended C8 at a concrete pulse configuration. -/
theorem C8_config_mutation_witness :
    ∃ (m : Mat ℚ) (c' : Config), main envQ cfgC5 0 = .ok (m, c') ∧
      c'.duty = cfgC5.duty ∧ c'.nsamp = cfgC5.nsamp := by
  obtain ⟨m, c', h⟩ : ∃ (m : Mat ℚ) (c' : Config),
      main envQ cfgC5 0 = .ok (m, c') := ⟨_, _, rfl⟩
  have hc := C8_config_mutation envQ cfgC5 0 m c' h
  exact ⟨m, c', h, hc.2.2.2.2.2.2.2.2.2.2.1,
    hc.2.2.2.2.2.2.2.2.2.2.2.2.2.2.2.1 (by decide)⟩

/-! ## The sine path: resolving the tone loop -/

theorem except_ok_bind {ε α β : Type} (a : α) (g : α → Except ε β) :
    ((Except.ok a : Except ε α) >>= g) = g a := rfl

theorem except_error_bind {ε α β : Type} (e : ε) (g : α → Except ε β) :
    ((Except.error e : Except ε α) >>= g) = .error e := rfl

theorem getD_set_self {α : Type} {l : List α} {i : ℕ} {a d : α} (h : i < l.length) :
    (l.set i a).getD i d = a := by
  rw [List.getD_eq_getElem?_getD, List.getElem?_set_self h]
  rfl

theorem getD_set_ne {α : Type} {l : List α} {i j : ℕ} {a d : α} (h : i ≠ j) :
    (l.set i a).getD j d = l.getD j d := by
  rw [List.getD_eq_getElem?_getD, List.getElem?_set_ne h, ← List.getD_eq_getElem?_getD]

theorem phaseValue_zero (l : List ℚ) (ph : ℚ) : phaseValue l 0 ph = .ok ph := by
  unfold phaseValue
  rw [if_pos rfl]

/-- With a nonzero `tau`, the phase computation raises TypeError: the
Python list produced by `phase_from_delay` cannot be multiplied by the
float `np.pi/180` (and a fractional `tau` already raises inside). -/
theorem phaseValue_ne_zero (l : List ℚ) (tau ph : ℚ) (h : tau ≠ 0) :
    phaseValue l tau ph = .error "TypeError" := by
  unfold phaseValue
  rw [if_neg h]
  unfold phase_from_delay
  split
  · rfl
  · rename_i e heq
    split at heq
    · exact absurd heq (by simp)
    · simp only [Except.error.injEq] at heq
      rw [← heq]

/-- One iteration of the tone loop with `tau = 0` and a successful
frequency resolution. -/
theorem toneLoop_cons_tau0 {R : Type} [Field R] (sinf : R → R) (piR : R)
    (fs sig_phase : ℚ) (nsamp fuel : ℕ) (coherent : Bool) (amps cms : List ℚ)
    (t : ℕ → ℚ) (i : ℕ) (rest : List ℕ) (freqs : List ℚ) (s : ℕ → R) (fi : ℚ)
    (hres : coherentResolve coherent fs (freqs.getD i 0) nsamp fuel = .ok fi) :
    toneLoop sinf piR fs 0 sig_phase nsamp fuel coherent amps cms t
      (i :: rest) freqs (some s) =
    toneLoop sinf piR fs 0 sig_phase nsamp fuel coherent amps cms t
      rest (if coherent then freqs.set i fi else freqs)
      (some (fun k => s k + toneVal sinf piR
        ((if coherent then freqs.set i fi else freqs).getD i 0)
        (amps.getD i 0) (cms.getD i 0) sig_phase (t k))) := by
  simp only [toneLoop, hres, except_ok_bind, phaseValue_zero]

/-- Same, starting from Python `None`. -/
theorem toneLoop_cons_none_tau0 {R : Type} [Field R] (sinf : R → R) (piR : R)
    (fs sig_phase : ℚ) (nsamp fuel : ℕ) (coherent : Bool) (amps cms : List ℚ)
    (t : ℕ → ℚ) (i : ℕ) (rest : List ℕ) (freqs : List ℚ) (fi : ℚ)
    (hres : coherentResolve coherent fs (freqs.getD i 0) nsamp fuel = .ok fi) :
    toneLoop sinf piR fs 0 sig_phase nsamp fuel coherent amps cms t
      (i :: rest) freqs none =
    toneLoop sinf piR fs 0 sig_phase nsamp fuel coherent amps cms t
      rest (if coherent then freqs.set i fi else freqs)
      (some (fun k => toneVal sinf piR
        ((if coherent then freqs.set i fi else freqs).getD i 0)
        (amps.getD i 0) (cms.getD i 0) sig_phase (t k))) := by
  simp only [toneLoop, hres, except_ok_bind, phaseValue_zero]

/-- One iteration of the tone loop with a nonzero `tau` crashes (C4). -/
theorem toneLoop_cons_crash {R : Type} [Field R] (sinf : R → R) (piR : R)
    (fs tau sig_phase : ℚ) (nsamp fuel : ℕ) (coherent : Bool) (amps cms : List ℚ)
    (t : ℕ → ℚ) (i : ℕ) (rest : List ℕ) (freqs : List ℚ) (sig : Option (ℕ → R))
    (fi : ℚ)
    (hres : coherentResolve coherent fs (freqs.getD i 0) nsamp fuel = .ok fi)
    (htau : tau ≠ 0) :
    toneLoop sinf piR fs tau sig_phase nsamp fuel coherent amps cms t
      (i :: rest) freqs sig = .error "TypeError" := by
  simp only [toneLoop, hres, except_ok_bind,
    phaseValue_ne_zero _ _ _ htau, except_error_bind]

/-- Unfolding the whole tone loop over `range' j m` with `tau = 0`: the
signal accumulates the sum of the tones at the resolved frequencies
`g i`. -/
theorem toneLoop_sum {R : Type} [Field R] (sinf : R → R) (piR : R)
    (fs sig_phase : ℚ) (nsamp fuel : ℕ) (coherent : Bool)
    (amps cms : List ℚ) (t : ℕ → ℚ) (g : ℕ → ℚ) :
    ∀ (m j : ℕ) (freqs : List ℚ) (s : ℕ → R),
      (∀ i, j ≤ i → i < j + m → i < freqs.length ∧
        coherentResolve coherent fs (freqs.getD i 0) nsamp fuel = .ok (g i)) →
      ∃ fr : List ℚ,
        toneLoop sinf piR fs 0 sig_phase nsamp fuel coherent amps cms t
          (List.range' j m) freqs (some s) =
        .ok (fr, some (fun k => s k +
          ((List.range' j m).map (fun i =>
            toneVal sinf piR (g i) (amps.getD i 0) (cms.getD i 0)
              sig_phase (t k))).sum)) := by
  intro m
  induction m with
  | zero =>
    intro j freqs s hres
    refine ⟨freqs, ?_⟩
    have hfun : (fun k => s k + ((List.range' j 0).map (fun i =>
        toneVal sinf piR (g i) (amps.getD i 0) (cms.getD i 0)
          sig_phase (t k))).sum) = s := by
      funext k
      simp
    rw [hfun]
    simp [toneLoop]
  | succ m ih =>
    intro j freqs s hres
    obtain ⟨hjlen, hresj⟩ := hres j le_rfl (by omega)
    rw [List.range'_succ]
    rw [toneLoop_cons_tau0 sinf piR fs sig_phase nsamp fuel coherent amps cms t
      j (List.range' (j + 1) m) freqs s (g j) hresj]
    set freqs1 := if coherent then freqs.set j (g j) else freqs with hfreqs1
    have hgj : freqs1.getD j 0 = g j := by
      rw [hfreqs1]
      by_cases hco : coherent
      · rw [if_pos hco]
        exact getD_set_self hjlen
      · rw [if_neg hco]
        have h2 := hresj
        unfold coherentResolve at h2
        rw [if_neg (by simp [hco])] at h2
        simpa using h2
    have hlen1 : freqs1.length = freqs.length := by
      rw [hfreqs1]
      by_cases hco : coherent
      · rw [if_pos hco]
        simp
      · rw [if_neg hco]
    have hgetne : ∀ i, i ≠ j → freqs1.getD i 0 = freqs.getD i 0 := by
      intro i hij
      rw [hfreqs1]
      by_cases hco : coherent
      · rw [if_pos hco]
        exact getD_set_ne (Ne.symm hij)
      · rw [if_neg hco]
    have hres1 : ∀ i, j + 1 ≤ i → i < (j + 1) + m → i < freqs1.length ∧
        coherentResolve coherent fs (freqs1.getD i 0) nsamp fuel = .ok (g i) := by
      intro i h1 h2
      have h3 := hres i (by omega) (by omega)
      refine ⟨by rw [hlen1]; exact h3.1, ?_⟩
      rw [hgetne i (by omega)]
      exact h3.2
    obtain ⟨fr, hloop⟩ := ih (j + 1) freqs1
      (fun k => s k + toneVal sinf piR (freqs1.getD j 0) (amps.getD j 0)
        (cms.getD j 0) sig_phase (t k)) hres1
    refine ⟨fr, ?_⟩
    rw [hloop]
    have hfun : (fun k => (s k + toneVal sinf piR (freqs1.getD j 0) (amps.getD j 0)
        (cms.getD j 0) sig_phase (t k)) +
        ((List.range' (j + 1) m).map (fun i =>
          toneVal sinf piR (g i) (amps.getD i 0) (cms.getD i 0)
            sig_phase (t k))).sum) =
        (fun k => s k + ((j :: List.range' (j + 1) m).map (fun i =>
          toneVal sinf piR (g i) (amps.getD i 0) (cms.getD i 0)
            sig_phase (t k))).sum) := by
      funext k
      rw [hgj]
      simp only [List.map_cons, List.sum_cons]
      ring
    rw [hfun]

/-- The full tone loop over all indices of a nonempty frequency list,
starting from Python `None`. -/
theorem toneLoop_none_sum {R : Type} [Field R] (sinf : R → R) (piR : R)
    (fs sig_phase : ℚ) (nsamp fuel : ℕ) (coherent : Bool)
    (amps cms : List ℚ) (t : ℕ → ℚ) (g : ℕ → ℚ) (freqs : List ℚ)
    (hne : freqs ≠ [])
    (hres : ∀ i, i < freqs.length →
      coherentResolve coherent fs (freqs.getD i 0) nsamp fuel = .ok (g i)) :
    ∃ fr : List ℚ,
      toneLoop sinf piR fs 0 sig_phase nsamp fuel coherent amps cms t
        (List.range freqs.length) freqs none =
      .ok (fr, some (fun k =>
        ((List.range freqs.length).map (fun i =>
          toneVal sinf piR (g i) (amps.getD i 0) (cms.getD i 0)
            sig_phase (t k))).sum)) := by
  have hlen : 0 < freqs.length := List.length_pos.mpr hne
  have hsplit : List.range freqs.length = 0 :: List.range' 1 (freqs.length - 1) := by
    rw [List.range_eq_range']
    have : freqs.length = (freqs.length - 1) + 1 := by omega
    rw [this, List.range'_succ]
    simp
  rw [hsplit]
  rw [toneLoop_cons_none_tau0 sinf piR fs sig_phase nsamp fuel coherent amps cms t
    0 (List.range' 1 (freqs.length - 1)) freqs (g 0) (hres 0 hlen)]
  set freqs1 := if coherent then freqs.set 0 (g 0) else freqs with hfreqs1
  have hg0 : freqs1.getD 0 0 = g 0 := by
    rw [hfreqs1]
    by_cases hco : coherent
    · rw [if_pos hco]
      exact getD_set_self hlen
    · rw [if_neg hco]
      have h2 := hres 0 hlen
      unfold coherentResolve at h2
      rw [if_neg (by simp [hco])] at h2
      simpa using h2
  have hlen1 : freqs1.length = freqs.length := by
    rw [hfreqs1]
    by_cases hco : coherent
    · rw [if_pos hco]
      simp
    · rw [if_neg hco]
  have hgetne : ∀ i, i ≠ 0 → freqs1.getD i 0 = freqs.getD i 0 := by
    intro i hij
    rw [hfreqs1]
    by_cases hco : coherent
    · rw [if_pos hco]
      exact getD_set_ne (Ne.symm hij)
    · rw [if_neg hco]
  have hres1 : ∀ i, 1 ≤ i → i < 1 + (freqs.length - 1) → i < freqs1.length ∧
      coherentResolve coherent fs (freqs1.getD i 0) nsamp fuel = .ok (g i) := by
    intro i h1 h2
    refine ⟨by omega, ?_⟩
    rw [hgetne i (by omega)]
    exact hres i (by omega)
  obtain ⟨fr, hloop⟩ := toneLoop_sum sinf piR fs sig_phase nsamp fuel coherent
    amps cms t g (freqs.length - 1) 1 freqs1
    (fun k => toneVal sinf piR (freqs1.getD 0 0) (amps.getD 0 0) (cms.getD 0 0)
      sig_phase (t k)) hres1
  refine ⟨fr, ?_⟩
  rw [hloop]
  have hfun : (fun k => toneVal sinf piR (freqs1.getD 0 0) (amps.getD 0 0)
      (cms.getD 0 0) sig_phase (t k) +
      ((List.range' 1 (freqs.length - 1)).map (fun i =>
        toneVal sinf piR (g i) (amps.getD i 0) (cms.getD i 0)
          sig_phase (t k))).sum) =
      (fun k => ((0 :: List.range' 1 (freqs.length - 1)).map (fun i =>
        toneVal sinf piR (g i) (amps.getD i 0) (cms.getD i 0)
          sig_phase (t k))).sum) := by
    funext k
    rw [hg0]
    simp only [List.map_cons, List.sum_cons]
  rw [hfun]

/-- The final signal of the sine path: the multi-tone sum at the resolved
frequencies `g i`, plus the realized SNR noise when `snr > 0`. -/
def sineSig {R : Type} [Field R] (env : Env R) (cfg : Config) (g : ℕ → ℚ) : ℕ → R :=
  fun k =>
    ((List.range cfg.sig_freq.toList.length).map (fun i =>
      toneVal env.sinf env.piR (g i) (cfg.sig_amp.toList.getD i 0)
        (cfg.sig_cm.toList.getD i 0) cfg.sig_phase
        (linT (cfg.nsamp + cfg.extra_sampl) cfg.fs
          ((cfg.nsamp + cfg.extra_sampl) * cfg.sig_osr) k))).sum +
    (if 0 < cfg.snr then env.snoise k else 0)

/-- What `sineCore` returns when `tau = 0`, the tone lists have matching
lengths (no broadcast) and every per-tone frequency resolution yields
`g i`. -/
theorem sineCore_spec {R : Type} [Field R] (env : Env R) (cfg : Config) (fuel : ℕ)
    (g : ℕ → ℚ)
    (htau : cfg.tau = 0)
    (hlen_a : cfg.sig_amp.toList.length = cfg.sig_freq.toList.length)
    (hlen_c : cfg.sig_cm.toList.length = cfg.sig_freq.toList.length)
    (hne : cfg.sig_freq.toList ≠ [])
    (hres : ∀ i, i < cfg.sig_freq.toList.length →
      coherentResolve cfg.coherent cfg.fs (cfg.sig_freq.toList.getD i 0)
        cfg.nsamp fuel = .ok (g i)) :
    ∃ fr : List ℚ,
      sineCore env cfg fuel =
        .ok (fr, cfg.sig_amp.toList, cfg.sig_cm.toList, sineSig env cfg g) := by
  obtain ⟨fr, hloop⟩ := toneLoop_none_sum env.sinf env.piR cfg.fs cfg.sig_phase
    cfg.nsamp fuel cfg.coherent cfg.sig_amp.toList cfg.sig_cm.toList
    (linT (cfg.nsamp + cfg.extra_sampl) cfg.fs
      ((cfg.nsamp + cfg.extra_sampl) * cfg.sig_osr)) g
    cfg.sig_freq.toList hne hres
  refine ⟨fr, ?_⟩
  have hemp : cfg.sig_freq.toList.isEmpty = false := by
    rw [List.isEmpty_eq_false]
    exact hne
  unfold sineCore
  simp only [hlen_a, hlen_c, eq_self_iff_true, if_true, except_ok_bind, hemp,
    Bool.false_eq_true, if_false, htau, hloop]
  have hsig : (if 0 < cfg.snr then
      (fun k => ((List.range cfg.sig_freq.toList.length).map (fun i =>
        toneVal env.sinf env.piR (g i) (cfg.sig_amp.toList.getD i 0)
          (cfg.sig_cm.toList.getD i 0) cfg.sig_phase
          (linT (cfg.nsamp + cfg.extra_sampl) cfg.fs
            ((cfg.nsamp + cfg.extra_sampl) * cfg.sig_osr) k))).sum + env.snoise k)
      else (fun k => ((List.range cfg.sig_freq.toList.length).map (fun i =>
        toneVal env.sinf env.piR (g i) (cfg.sig_amp.toList.getD i 0)
          (cfg.sig_cm.toList.getD i 0) cfg.sig_phase
          (linT (cfg.nsamp + cfg.extra_sampl) cfg.fs
            ((cfg.nsamp + cfg.extra_sampl) * cfg.sig_osr) k))).sum)) =
      sineSig env cfg g := by
    unfold sineSig
    by_cases hsnr : 0 < cfg.snr
    · rw [if_pos hsnr]
      funext k
      rw [if_pos hsnr]
    · rw [if_neg hsnr]
      funext k
      rw [if_neg hsnr, add_zero]
  rw [hsig]

/-- For `k < n*osr`, the `linspace` timestamp is `k/(fs*osr)`. -/
theorem linT_eq (n : ℕ) (fs : ℚ) (osr k : ℕ) (hk : k < n * osr) :
    linT n fs (n * osr) k = (k : ℚ) / (fs * (osr : ℚ)) := by
  have hn : n ≠ 0 := by
    rintro rfl
    simp at hk
  have hosr : osr ≠ 0 := by
    rintro rfl
    simp at hk
  unfold linT
  rcases eq_or_ne fs 0 with hfs | hfs
  · rw [hfs]
    simp
  · have hnQ : (n : ℚ) ≠ 0 := Nat.cast_ne_zero.mpr hn
    have hoQ : (osr : ℚ) ≠ 0 := Nat.cast_ne_zero.mpr hosr
    push_cast
    field_simp
    ring

/-- C2: for a sine configuration with `coherent=false`, `tau=0`, `snr=0`
and zero time offset (tone lists of matching length), the output has
exactly `(nsamp+extra_sampl)*sig_osr` rows; row `k` carries timestamp
`k/(fs*sig_osr)` and the multi-tone value
`sum_i amp[i]*sin(2*pi*freq[i]*t_k + phase*pi/180) + cm[i]`; at `t = 0`
the value is the per-tone sum of `amp*sin(phase_rad) + cm`. -/
theorem C2_sine_output {R : Type} [Field R] (env : Env R) (cfg : Config) (fuel : ℕ)
    (hst : cfg.sigtype = "sine") (hco : cfg.coherent = false) (htau : cfg.tau = 0)
    (hsnr : cfg.snr = 0) (hafter : cfg.after = 0)
    (hlen_a : cfg.sig_amp.toList.length = cfg.sig_freq.toList.length)
    (hlen_c : cfg.sig_cm.toList.length = cfg.sig_freq.toList.length)
    (hne : cfg.sig_freq.toList ≠ []) :
    ∃ (mat : Mat R) (cfg' : Config),
      main env cfg fuel = .ok (mat, cfg') ∧
      mat.length = (cfg.nsamp + cfg.extra_sampl) * cfg.sig_osr ∧
      (∀ k, k < (cfg.nsamp + cfg.extra_sampl) * cfg.sig_osr →
        mat.getD k ((0 : ℚ), (0 : R)) =
          ((k : ℚ) / (cfg.fs * (cfg.sig_osr : ℚ)),
           ((List.range cfg.sig_freq.toList.length).map (fun i =>
             toneVal env.sinf env.piR (cfg.sig_freq.toList.getD i 0)
               (cfg.sig_amp.toList.getD i 0) (cfg.sig_cm.toList.getD i 0)
               cfg.sig_phase ((k : ℚ) / (cfg.fs * (cfg.sig_osr : ℚ))))).sum)) ∧
      (0 < (cfg.nsamp + cfg.extra_sampl) * cfg.sig_osr →
        (mat.getD 0 ((0 : ℚ), (0 : R))).2 =
          ((List.range cfg.sig_freq.toList.length).map (fun i =>
            (cfg.sig_amp.toList.getD i 0 : R) *
              env.sinf ((cfg.sig_phase : R) * env.piR / 180) +
            (cfg.sig_cm.toList.getD i 0 : R))).sum) := by
  have hres : ∀ i, i < cfg.sig_freq.toList.length →
      coherentResolve cfg.coherent cfg.fs (cfg.sig_freq.toList.getD i 0)
        cfg.nsamp fuel = .ok (cfg.sig_freq.toList.getD i 0) := by
    intro i hi
    unfold coherentResolve
    rw [if_neg (by simp [hco])]
  obtain ⟨fr, hcore⟩ := sineCore_spec env cfg fuel
    (fun i => cfg.sig_freq.toList.getD i 0) htau hlen_a hlen_c hne hres
  have hforce : (if cfg.sigtype = "sine_samp" ∧ cfg.sig_osr ≠ 1 then
      { cfg with sig_osr := 1 } else cfg) = cfg := by
    rw [if_neg]
    rw [hst]
    simp
  have hmain : main env cfg fuel =
      .ok (sineMat cfg (sineSig env cfg (fun i => cfg.sig_freq.toList.getD i 0)),
        { cfg with
          sig_freq := QVal.list fr
          sig_amp := QVal.list cfg.sig_amp.toList
          sig_cm := QVal.list cfg.sig_cm.toList }) := by
    unfold main
    rw [if_pos (Or.inl hst)]
    unfold sinePath
    simp only []
    rw [hforce, hcore]
    simp only []
    unfold sineFinish
    rw [if_neg (by rw [hst]; simp)]
  set rows := (cfg.nsamp + cfg.extra_sampl) * cfg.sig_osr with hrows
  have hent : ∀ k, k < rows →
      (sineMat cfg (sineSig env cfg (fun i => cfg.sig_freq.toList.getD i 0))).getD k
          ((0 : ℚ), (0 : R)) =
        ((k : ℚ) / (cfg.fs * (cfg.sig_osr : ℚ)),
         ((List.range cfg.sig_freq.toList.length).map (fun i =>
           toneVal env.sinf env.piR (cfg.sig_freq.toList.getD i 0)
             (cfg.sig_amp.toList.getD i 0) (cfg.sig_cm.toList.getD i 0)
             cfg.sig_phase ((k : ℚ) / (cfg.fs * (cfg.sig_osr : ℚ))))).sum) := by
    intro k hk
    unfold sineMat
    rw [getD_map_range _ _ hk]
    rw [linT_eq _ _ _ _ hk, hafter, add_zero]
    congr 1
    unfold sineSig
    rw [hsnr]
    norm_num
    rw [linT_eq _ _ _ _ hk]
  refine ⟨_, _, hmain, by simp [sineMat], hent, ?_⟩
  intro hpos
  rw [hent 0 hpos]
  have harg : ∀ fq amp cm : ℚ,
      toneVal env.sinf env.piR fq amp cm cfg.sig_phase
        ((0 : ℕ) / (cfg.fs * (cfg.sig_osr : ℚ))) =
      (amp : R) * env.sinf ((cfg.sig_phase : R) * env.piR / 180) + (cm : R) := by
    intro fq amp cm
    unfold toneVal
    rw [show (((0 : ℕ) : ℚ) / (cfg.fs * (cfg.sig_osr : ℚ))) = 0 by simp]
    rw [Rat.cast_zero, mul_zero, zero_add]
  simp only [harg]

/-- The config of the C2 witness: the spec's end-to-end sine example. -/
def cfgC2 : Config :=
  { sigtype := "sine", sig_freq := .scalar 1000000, nsamp := 4, fs := 2000000000 }

/-- Witness for C2 at the example configuration: 4 rows with timestamps
`[0, 0.5e-9, 1e-9, 1.5e-9]`. -/
theorem C2_sine_output_witness :
    ∃ (mat : Mat ℚ) (cfg' : Config),
      main envQ cfgC2 0 = .ok (mat, cfg') ∧ mat.length = 4 ∧
      (mat.getD 0 ((0 : ℚ), (0 : ℚ))).1 = 0 ∧
      (mat.getD 1 ((0 : ℚ), (0 : ℚ))).1 = 1 / 2000000000 ∧
      (mat.getD 2 ((0 : ℚ), (0 : ℚ))).1 = 1 / 1000000000 ∧
      (mat.getD 3 ((0 : ℚ), (0 : ℚ))).1 = 3 / 2000000000 := by
  obtain ⟨mat, cfg', hmain, hlen, hent, hzero⟩ :=
    C2_sine_output envQ cfgC2 0 rfl rfl rfl rfl rfl rfl rfl (List.cons_ne_nil _ _)
  refine ⟨mat, cfg', hmain, by simpa [cfgC2] using hlen, ?_, ?_, ?_, ?_⟩
  · rw [hent 0 (by norm_num [cfgC2])]
    norm_num
  · rw [hent 1 (by norm_num [cfgC2])]
    norm_num [cfgC2]
  · rw [hent 2 (by norm_num [cfgC2])]
    norm_num [cfgC2]
  · rw [hent 3 (by norm_num [cfgC2])]
    norm_num [cfgC2]

/-- C4 (the code bug): for any sine configuration with a nonzero delay
`tau`, synthesis does not complete: by the time `phase_from_delay` runs,
`self.sig_freq` is a Python list, `-360*self.sig_freq*self.tau` is list
repetition, and the phase expression raises TypeError instead of
computing `-360*freq*tau`. -/
theorem C4_delay_crash {R : Type} [Field R] (env : Env R) (cfg : Config) (fuel : ℕ)
    (hst : cfg.sigtype = "sine") (htau : cfg.tau ≠ 0) (hco : cfg.coherent = false)
    (hlen_a : cfg.sig_amp.toList.length = cfg.sig_freq.toList.length)
    (hlen_c : cfg.sig_cm.toList.length = cfg.sig_freq.toList.length)
    (hne : cfg.sig_freq.toList ≠ []) :
    main env cfg fuel = .error "TypeError" := by
  have hlen : 0 < cfg.sig_freq.toList.length := List.length_pos.mpr hne
  have hres0 : coherentResolve cfg.coherent cfg.fs
      (cfg.sig_freq.toList.getD 0 0) cfg.nsamp fuel =
      .ok (cfg.sig_freq.toList.getD 0 0) := by
    unfold coherentResolve
    rw [if_neg (by simp [hco])]
  have hsplit : List.range cfg.sig_freq.toList.length =
      0 :: List.range' 1 (cfg.sig_freq.toList.length - 1) := by
    rw [List.range_eq_range']
    have : cfg.sig_freq.toList.length = (cfg.sig_freq.toList.length - 1) + 1 := by
      omega
    rw [this, List.range'_succ]
    simp
  have hemp : cfg.sig_freq.toList.isEmpty = false := by
    rw [List.isEmpty_eq_false]
    exact hne
  have hcore : sineCore env cfg fuel = .error "TypeError" := by
    unfold sineCore
    simp only [hlen_a, hlen_c, eq_self_iff_true, if_true, except_ok_bind, hemp,
      Bool.false_eq_true, if_false, hsplit]
    rw [toneLoop_cons_crash env.sinf env.piR cfg.fs cfg.tau cfg.sig_phase
      cfg.nsamp fuel cfg.coherent cfg.sig_amp.toList cfg.sig_cm.toList _
      0 _ _ _ _ hres0 htau]
    rfl
  have hforce : (if cfg.sigtype = "sine_samp" ∧ cfg.sig_osr ≠ 1 then
      { cfg with sig_osr := 1 } else cfg) = cfg := by
    rw [if_neg]
    rw [hst]
    simp
  unfold main
  rw [if_pos (Or.inl hst)]
  unfold sinePath
  simp only []
  rw [hforce, hcore]

/-- The config of the C4 witness: default sine tone with `tau = 1 ns`. -/
def cfgC4 : Config := { sigtype := "sine", tau := 1 / 1000000000 }

/-- Witness for C4: the default sine configuration with a 1 ns delay
raises TypeError. -/
theorem C4_delay_crash_witness : main (R := ℚ) envQ cfgC4 0 = .error "TypeError" :=
  C4_delay_crash envQ cfgC4 0 rfl (by norm_num [cfgC4]) rfl rfl rfl
    (List.cons_ne_nil _ _)

/-- C6 (amended): a sampled-sine synthesis that reaches the output stage
produces `2*(nsamp+extra_sampl)` rows plus a `(0, first-value)` anchor
exactly when `after ≠ 0`; each continuous-sine sample `(t, v)` becomes the
consecutive pair `(t, v)`, `(t + 1/fs - trise, v)` — provided
`nsamp + extra_sampl ≥ 1` when `after ≠ 0` (otherwise the code raises
IndexError reading `sine[0,1]`, see `C6_counterexample`). -/
theorem C6_sine_samp_output {R : Type} [Field R] (env : Env R) (cfg : Config)
    (fuel : ℕ) (g : ℕ → ℚ)
    (hst : cfg.sigtype = "sine_samp") (htau : cfg.tau = 0)
    (hlen_a : cfg.sig_amp.toList.length = cfg.sig_freq.toList.length)
    (hlen_c : cfg.sig_cm.toList.length = cfg.sig_freq.toList.length)
    (hne : cfg.sig_freq.toList ≠ [])
    (hres : ∀ i, i < cfg.sig_freq.toList.length →
      coherentResolve cfg.coherent cfg.fs (cfg.sig_freq.toList.getD i 0)
        cfg.nsamp fuel = .ok (g i))
    (hguard : cfg.after = 0 ∨ 0 < cfg.nsamp + cfg.extra_sampl) :
    ∃ (mat : Mat R) (cfg' : Config),
      main env cfg fuel = .ok (mat, cfg') ∧
      mat.length = 2 * (cfg.nsamp + cfg.extra_sampl) +
        (if cfg.after = 0 then 0 else 1) ∧
      (cfg.after ≠ 0 → mat.getD 0 ((0 : ℚ), (0 : R)) =
        ((0 : ℚ), sineSig env { cfg with sig_osr := 1 } g 0)) ∧
      (∀ k, k < cfg.nsamp + cfg.extra_sampl →
        mat.getD ((if cfg.after = 0 then 0 else 1) + 2 * k) ((0 : ℚ), (0 : R)) =
          ((k : ℚ) / cfg.fs + cfg.after, sineSig env { cfg with sig_osr := 1 } g k) ∧
        mat.getD ((if cfg.after = 0 then 0 else 1) + 2 * k + 1) ((0 : ℚ), (0 : R)) =
          ((k : ℚ) / cfg.fs + cfg.after + 1 / cfg.fs - cfg.trise,
            sineSig env { cfg with sig_osr := 1 } g k)) ∧
      (∀ k, k < cfg.nsamp + cfg.extra_sampl →
        (mat.getD ((if cfg.after = 0 then 0 else 1) + 2 * k + 1)
          ((0 : ℚ), (0 : R))).1 -
        (mat.getD ((if cfg.after = 0 then 0 else 1) + 2 * k)
          ((0 : ℚ), (0 : R))).1 = 1 / cfg.fs - cfg.trise) := by
  set ncfg : Config := { cfg with sig_osr := 1 } with hncfg
  set sig : ℕ → R := sineSig env ncfg g with hsig
  obtain ⟨fr, hcore⟩ := sineCore_spec env ncfg fuel g htau hlen_a hlen_c hne hres
  have hforce : (if cfg.sigtype = "sine_samp" ∧ cfg.sig_osr ≠ 1 then
      { cfg with sig_osr := 1 } else cfg) = ncfg := by
    by_cases hosr1 : cfg.sig_osr = 1
    · rw [if_neg (by simp [hosr1])]
      rw [hncfg]
      cases cfg
      simp_all
    · rw [if_pos ⟨hst, hosr1⟩]
  have hstep : main env cfg fuel = sineFinish ncfg (fr,
      cfg.sig_amp.toList, cfg.sig_cm.toList, sig) := by
    unfold main
    rw [if_pos (Or.inr hst)]
    unfold sinePath
    simp only []
    rw [hforce, hcore]
  set n := cfg.nsamp + cfg.extra_sampl with hn
  have hpair : ∀ k, k < n →
      (pairMat ncfg sig).getD (2 * k) ((0 : ℚ), (0 : R)) =
        ((k : ℚ) / cfg.fs + cfg.after, sig k) ∧
      (pairMat ncfg sig).getD (2 * k + 1) ((0 : ℚ), (0 : R)) =
        ((k : ℚ) / cfg.fs + cfg.after + 1 / cfg.fs - cfg.trise, sig k) := by
    intro k hk
    have hb0 : 2 * k < 2 * (ncfg.nsamp + ncfg.extra_sampl) := by
      have : ncfg.nsamp = cfg.nsamp := rfl
      have : ncfg.extra_sampl = cfg.extra_sampl := rfl
      omega
    have hb1 : 2 * k + 1 < 2 * (ncfg.nsamp + ncfg.extra_sampl) := by
      have : ncfg.nsamp = cfg.nsamp := rfl
      have : ncfg.extra_sampl = cfg.extra_sampl := rfl
      omega
    have g0 := getD_map_range (m := 2 * (ncfg.nsamp + ncfg.extra_sampl))
      (i := 2 * k)
      (fun idx => if idx % 2 = 0 then
        (((idx / 2 : ℕ) : ℚ) / ncfg.fs + ncfg.after, sig (idx / 2))
        else (((idx / 2 : ℕ) : ℚ) / ncfg.fs + ncfg.after + 1 / ncfg.fs - ncfg.trise,
          sig (idx / 2))) ((0 : ℚ), (0 : R)) hb0
    have g1 := getD_map_range (m := 2 * (ncfg.nsamp + ncfg.extra_sampl))
      (i := 2 * k + 1)
      (fun idx => if idx % 2 = 0 then
        (((idx / 2 : ℕ) : ℚ) / ncfg.fs + ncfg.after, sig (idx / 2))
        else (((idx / 2 : ℕ) : ℚ) / ncfg.fs + ncfg.after + 1 / ncfg.fs - ncfg.trise,
          sig (idx / 2))) ((0 : ℚ), (0 : R)) hb1
    have hm0 : (2 * k) % 2 = 0 := by omega
    have hd0 : (2 * k) / 2 = k := by omega
    have hm1 : (2 * k + 1) % 2 = 1 := by omega
    have hd1 : (2 * k + 1) / 2 = k := by omega
    simp only [hm0, hd0, if_pos] at g0
    simp only [hm1, hd1, Nat.one_ne_zero, if_false] at g1
    constructor
    · rw [show pairMat ncfg sig = (List.range (2 * (ncfg.nsamp + ncfg.extra_sampl))).map
        (fun idx => if idx % 2 = 0 then
          (((idx / 2 : ℕ) : ℚ) / ncfg.fs + ncfg.after, sig (idx / 2))
          else (((idx / 2 : ℕ) : ℚ) / ncfg.fs + ncfg.after + 1 / ncfg.fs - ncfg.trise,
            sig (idx / 2))) from rfl]
      rw [g0]
    · rw [show pairMat ncfg sig = (List.range (2 * (ncfg.nsamp + ncfg.extra_sampl))).map
        (fun idx => if idx % 2 = 0 then
          (((idx / 2 : ℕ) : ℚ) / ncfg.fs + ncfg.after, sig (idx / 2))
          else (((idx / 2 : ℕ) : ℚ) / ncfg.fs + ncfg.after + 1 / ncfg.fs - ncfg.trise,
            sig (idx / 2))) from rfl]
      rw [g1]
  have hplen : (pairMat ncfg sig).length = 2 * n := by
    unfold pairMat
    simp
  set cfg1 : Config := { ncfg with
    sig_freq := QVal.list fr
    sig_amp := QVal.list cfg.sig_amp.toList
    sig_cm := QVal.list cfg.sig_cm.toList } with hcfg1
  by_cases hafter : cfg.after = 0
  · refine ⟨pairMat ncfg sig, cfg1, ?_, ?_, ?_, ?_, ?_⟩
    · rw [hstep]
      unfold sineFinish
      rw [if_pos (show ncfg.sigtype = "sine_samp" from hst),
        if_pos (show ncfg.after = 0 from hafter)]
    · rw [hplen, if_pos hafter]
      omega
    · intro hc
      exact absurd hafter hc
    · intro k hk
      simp only [if_pos hafter, Nat.zero_add]
      exact hpair k hk
    · intro k hk
      obtain ⟨p0, p1⟩ := hpair k hk
      simp only [if_pos hafter, Nat.zero_add]
      rw [p0, p1]
      ring
  · have hnpos : 0 < n := by
      rcases hguard with hg | hg
      · exact absurd hg hafter
      · exact hg
    refine ⟨((0 : ℚ), sig 0) :: pairMat ncfg sig, cfg1, ?_, ?_, ?_, ?_, ?_⟩
    · rw [hstep]
      unfold sineFinish
      rw [if_pos (show ncfg.sigtype = "sine_samp" from hst),
        if_neg (show ¬ ncfg.after = 0 from hafter),
        if_neg (show ¬ (ncfg.nsamp + ncfg.extra_sampl) * ncfg.sig_osr = 0 by
          have h1 : ncfg.nsamp = cfg.nsamp := rfl
          have h2 : ncfg.extra_sampl = cfg.extra_sampl := rfl
          have h3 : ncfg.sig_osr = 1 := rfl
          simp only [h1, h2, h3, Nat.mul_one]
          omega)]
    · rw [List.length_cons, hplen, if_neg hafter]
    · intro _
      rfl
    · intro k hk
      obtain ⟨p0, p1⟩ := hpair k hk
      simp only [if_neg hafter]
      have e0 : 1 + 2 * k = 2 * k + 1 := by omega
      have e1 : 1 + 2 * k + 1 = 2 * k + 1 + 1 := by omega
      constructor
      · rw [e0, List.getD_cons_succ]
        exact p0
      · rw [e1, List.getD_cons_succ]
        exact p1
    · intro k hk
      obtain ⟨p0, p1⟩ := hpair k hk
      simp only [if_neg hafter]
      have e0 : 1 + 2 * k = 2 * k + 1 := by omega
      have e1 : 1 + 2 * k + 1 = 2 * k + 1 + 1 := by omega
      rw [e1, e0, List.getD_cons_succ, List.getD_cons_succ, p0, p1]
      ring

/-- The sampled-sine configuration on which the claimed anchor behaviour
fails: zero samples and a nonzero offset. -/
def cfgC6x : Config := { sigtype := "sine_samp", nsamp := 0, after := 1 }

/-- C6 counterexample: with `nsamp + extra_sampl = 0` and a nonzero time
offset, the code does not return the claimed 0-row-plus-anchor matrix; it
raises IndexError evaluating `sine[0,1]` on the empty sine matrix. -/
theorem C6_counterexample : main (R := ℚ) envQ cfgC6x 0 = .error "IndexError" := by
  have hres : ∀ i, i < cfgC6x.sig_freq.toList.length →
      coherentResolve cfgC6x.coherent cfgC6x.fs (cfgC6x.sig_freq.toList.getD i 0)
        cfgC6x.nsamp 0 = .ok (cfgC6x.sig_freq.toList.getD i 0) := by
    intro i hi
    rfl
  obtain ⟨fr, hcore⟩ := sineCore_spec envQ cfgC6x 0
    (fun i => cfgC6x.sig_freq.toList.getD i 0) rfl rfl rfl
    (List.cons_ne_nil _ _) hres
  unfold main
  rw [if_pos (Or.inr (show cfgC6x.sigtype = "sine_samp" from rfl))]
  unfold sinePath
  simp only []
  rw [show (if cfgC6x.sigtype = "sine_samp" ∧ cfgC6x.sig_osr ≠ 1 then
    { cfgC6x with sig_osr := 1 } else cfgC6x) = cfgC6x by
      rw [if_neg]
      exact fun h => h.2 rfl]
  rw [hcore]
  simp only []
  unfold sineFinish
  rw [if_pos (show cfgC6x.sigtype = "sine_samp" from rfl),
    if_neg (show ¬ cfgC6x.after = 0 by norm_num [cfgC6x]),
    if_pos (show (cfgC6x.nsamp + cfgC6x.extra_sampl) * cfgC6x.sig_osr = 0 from rfl)]

/-- The config of the C6 witness: two samples with a nonzero offset. -/
def cfgC6 : Config := { sigtype := "sine_samp", nsamp := 2, after := 1 / 2 }

/-- Witness for the amended C6 at a concrete sampled-sine config: 5 rows
(2 pairs plus anchor) and pair spacing `1/fs - trise`. -/
theorem C6_sine_samp_output_witness :
    ∃ (mat : Mat ℚ) (cfg' : Config),
      main envQ cfgC6 0 = .ok (mat, cfg') ∧ mat.length = 5 ∧
      (mat.getD 2 ((0 : ℚ), (0 : ℚ))).1 - (mat.getD 1 ((0 : ℚ), (0 : ℚ))).1 =
        1 / cfgC6.fs - cfgC6.trise := by
  obtain ⟨mat, cfg', hmain, hlen, hanchor, hent, hspace⟩ :=
    C6_sine_samp_output envQ cfgC6 0
      (fun i => cfgC6.sig_freq.toList.getD i 0) rfl rfl rfl rfl
      (List.cons_ne_nil _ _) (fun i _ => rfl) (Or.inr (by norm_num [cfgC6]))
  refine ⟨mat, cfg', hmain, by simpa [cfgC6] using hlen, ?_⟩
  have := hspace 0 (by norm_num [cfgC6])
  simpa [cfgC6] using this

end SigGen
